import Mathlib

/-!
Verification development for the molecule game dataset preparation tool
(src/prepare_molecules.py).  The Python source is shallowly embedded below:
every function of the script that the properties refer to is translated into
a Lean definition of the same name, with Python mutable state made explicit
(the level builder's loop state, the representative selector's bins/queues,
and a small store model for the aliasing facts).  Python floats appearing in
the similarity threshold arithmetic are idealised as exact rationals; Python
sets of file paths are modelled as lists queried only through membership.
-/

namespace PrepMol

/-- Descriptor record produced by parse_mol2_file for one .mol2 file. -/
structure Molecule where
  file_path : String
  name : String
  atom_count : Nat
  c_atoms : Nat
  o_atoms : Nat
  n_atoms : Nat
  h_atoms : Nat
  file_name : String
deriving DecidableEq

/-- Projection of a molecule stored inside a game level (name, file, atom_count). -/
structure LevelEntry where
  name : String
  file : String
  atom_count : Nat
deriving DecidableEq

/-- One game level: a target plus its list of similar molecules. -/
structure GameLevel where
  target : LevelEntry
  similar : List LevelEntry
deriving DecidableEq

/-- NUM_MOLECULES constant of the script. -/
def NUM_MOLECULES : Nat := 120

/-- SIMILARITY_THRESHOLD constant of the script (0.2, idealised as 1/5). -/
def SIMILARITY_THRESHOLD : ℚ := 1 / 5

/-- Characters of a path after the last slash (helper for basename). -/
def basenameAux : List Char → List Char → List Char
  | [], cur => cur.reverse
  | c :: cs, cur => if c = '/' then basenameAux cs [] else basenameAux cs (c :: cur)

/-- Models os.path.basename on POSIX paths: the part after the final slash. -/
def basename (p : String) : String := String.mk (basenameAux p.data [])

/-- Removes every (left-to-right, non-overlapping) occurrence of ".mol2",
specialising Python str.replace to the one pattern the script uses. -/
def stripMol2 : List Char → List Char
  | '.' :: 'm' :: 'o' :: 'l' :: '2' :: rest => stripMol2 rest
  | c :: rest => c :: stripMol2 rest
  | [] => []

/-- String wrapper of stripMol2, modelling s.replace with pattern ".mol2". -/
def stripExt (s : String) : String := String.mk (stripMol2 s.data)

/-- Abstract view of one .mol2 file as seen by parse_mol2_file: whether the
file could be read at all, the two regex match results over its text (the
name token after the MOLECULE tag, and the declared atom-count token), and
the four elemental sub-pattern occurrence counts.  The regex engine itself is
I/O-side plumbing; its match results are taken as the record's fields. -/
structure RawMol2 where
  readable : Bool
  nameTok : Option String
  atomCountTok : Option Nat
  cMatches : Nat
  oMatches : Nat
  nMatches : Nat
  hMatches : Nat
deriving DecidableEq

/-- parse_mol2_file: name falls back to the basename stripped of ".mol2",
atom_count falls back to 0 when the count token is absent; a read failure
yields no descriptor (the except branch returning None). -/
def parse_mol2_file (file_path : String) (raw : RawMol2) : Option Molecule :=
  if raw.readable then
    some { file_path := file_path
         , name := raw.nameTok.getD (stripExt (basename file_path))
         , atom_count := raw.atomCountTok.getD 0
         , c_atoms := raw.cMatches
         , o_atoms := raw.oMatches
         , n_atoms := raw.nMatches
         , h_atoms := raw.hMatches
         , file_name := basename file_path }
  else none

/-- collect_molecule_data: parse every listed record, keep descriptors whose
atom_count reaches the floor.  The directory listing is abstracted as the
list of (file path, raw record) pairs. -/
def collect_molecule_data (records : List (String × RawMol2)) (min_atoms : Nat) : List Molecule :=
  records.filterMap fun r =>
    match parse_mol2_file r.1 r.2 with
    | some md => if min_atoms ≤ md.atom_count then some md else none
    | none => none

/-- Insertion step of the stable key sort: x goes in front of the first
element whose key is not smaller than x's. -/
def insertByKey {α : Type} (key : α → Nat) (x : α) : List α → List α
  | [] => [x]
  | y :: ys => if key x ≤ key y then x :: y :: ys else y :: insertByKey key x ys

/-- Stable sort by an integer key.  Python's list.sort is a stable sort, and
a stable sort's output is uniquely determined by sortedness plus stability,
so insertion sort is extensionally the same function. -/
def sortByKey {α : Type} (key : α → Nat) : List α → List α
  | [] => []
  | x :: xs => insertByKey key x (sortByKey key xs)

/-- Absolute atom-count difference from the target (the sort/filter key of
find_similar_molecules). -/
def simKey (target m : Molecule) : Nat :=
  ((m.atom_count : ℤ) - (target.atom_count : ℤ)).natAbs

/-- One threshold filter pass of find_similar_molecules: molecules within
max_diff of the target's atom count, excluding the target itself and the
excluded file paths. -/
def simFilter (target : Molecule) (all_molecules : List Molecule) (exclude : List String)
    (max_diff : ℚ) : List Molecule :=
  all_molecules.filter fun m =>
    decide ((simKey target m : ℚ) ≤ max_diff ∧
      m.file_path ≠ target.file_path ∧ m.file_path ∉ exclude)

/-- The eligible pool: every molecule other than the target and the excluded
ones (the fallback pass's candidate list, before sorting). -/
def eligibleOf (target : Molecule) (all_molecules : List Molecule) (exclude : List String) :
    List Molecule :=
  all_molecules.filter fun m =>
    decide (m.file_path ≠ target.file_path ∧ m.file_path ∉ exclude)

/-- The successive values taken by threshold_multiplier: it starts at 1.5,
grows by 0.5, and the loop admits multipliers up to and including 5. -/
def ESCALATION_MULTIPLIERS : List ℚ := [3 / 2, 2, 5 / 2, 3, 7 / 2, 4, 9 / 2, 5]

/-- The escalation while-loop of find_similar_molecules: as long as fewer
than 2 candidates are present and multipliers remain, refilter at the base
max_diff scaled by the next multiplier. -/
def escalateLoop (target : Molecule) (all_molecules : List Molecule) (exclude : List String)
    (max_diff : ℚ) : List ℚ → List Molecule → List Molecule
  | [], cur => cur
  | mult :: rest, cur =>
    if cur.length < 2 then
      escalateLoop target all_molecules exclude max_diff rest
        (simFilter target all_molecules exclude (max_diff * mult))
    else cur

/-- find_similar_molecules: base threshold pass, escalation passes, global
closest-two fallback, then a final stable sort by distance and a take of the
first two. -/
def find_similar_molecules (target : Molecule) (all_molecules : List Molecule)
    (similarity_threshold : ℚ) (exclude : List String) : List Molecule :=
  let max_diff : ℚ := (target.atom_count : ℚ) * similarity_threshold
  let base := simFilter target all_molecules exclude max_diff
  let afterEsc :=
    if base.length < 2 then
      escalateLoop target all_molecules exclude max_diff ESCALATION_MULTIPLIERS base
    else base
  let afterFallback :=
    if afterEsc.length < 2 then
      (sortByKey (simKey target) (eligibleOf target all_molecules exclude)).take 2
    else afterEsc
  (sortByKey (simKey target) afterFallback).take 2

/-- Mutable state of select_representative_molecules' selection loop: the
live atom_counts list (pruned as bins empty), the bins map, the selected
output in order, and the used_file_paths set (as a membership list). -/
structure SelState where
  live : List Nat
  bins : Nat → List Molecule
  selected : List Molecule
  used : List String

/-- One sweep of the selector's inner for-loop over a snapshot of the live
atom counts: an empty bin prunes its key from the live list; otherwise the
bin's front molecule is popped, appended to the selection when its path is
unseen, and the sweep breaks (second component true) once the quota is hit. -/
def sweepSnap (num_to_select : Nat) : List Nat → SelState → SelState × Bool
  | [], s => (s, false)
  | ac :: rest, s =>
    match s.bins ac with
    | [] => sweepSnap num_to_select rest { s with live := s.live.erase ac }
    | m :: ms =>
      let bins' : Nat → List Molecule := fun k => if k = ac then ms else s.bins k
      if m.file_path ∈ s.used then
        sweepSnap num_to_select rest { s with bins := bins' }
      else
        let s' : SelState :=
          { s with bins := bins', selected := s.selected ++ [m], used := m.file_path :: s.used }
        if num_to_select ≤ s'.selected.length then (s', true)
        else sweepSnap num_to_select rest s'

/-- The selector's outer while-loop: sweep while the quota is unmet and live
atom counts remain; stop on quota (break) or when every bin is empty.  The
fuel argument bounds the number of while iterations; the caller passes one
more than the loop's decreasing measure, so it never runs out. -/
def sweepOuter (num_to_select : Nat) (allKeys : List Nat) : Nat → SelState → List Molecule
  | 0, s => s.selected
  | fuel + 1, s =>
    if s.selected.length < num_to_select ∧ s.live ≠ [] then
      let r := sweepSnap num_to_select s.live s
      if r.2 then r.1.selected
      else if allKeys.all fun k => decide (r.1.bins k = []) then r.1.selected
      else sweepOuter num_to_select allKeys fuel r.1
    else s.selected

/-- Body of select_representative_molecules after the sort: bins keyed by
exact atom count (each bin in list order, i.e. FIFO), the ascending distinct
atom counts, and the sweep loop.  The input is the ascending-sorted working
set, so dedup of the key list enumerates the distinct keys. -/
def selectCore (sorted_molecules : List Molecule) (num_to_select : Nat) : List Molecule :=
  let atom_counts := sortByKey (fun k => k) ((sorted_molecules.map fun m => m.atom_count).dedup)
  let bins : Nat → List Molecule := fun k => sorted_molecules.filter fun m => m.atom_count == k
  sweepOuter num_to_select atom_counts (sorted_molecules.length + atom_counts.length + 1)
    ⟨atom_counts, bins, [], []⟩

/-- select_representative_molecules: floor filter (rebinding to a fresh
list), empty-pool early return, ascending sort, then the bin sweep. -/
def select_representative_molecules (molecules : List Molecule) (num_to_select : Nat)
    (min_atoms : Nat) : List Molecule :=
  let filtered := molecules.filter fun m => decide (min_atoms ≤ m.atom_count)
  if filtered = [] then []
  else selectCore (sortByKey (fun m => m.atom_count) filtered) num_to_select

/-- Level-entry projection applied to target and similar molecules. -/
def projEntry (m : Molecule) : LevelEntry := ⟨m.name, m.file_name, m.atom_count⟩

/-- Assemble one game level from a target and its similar molecules. -/
def mkLevel (target : Molecule) (sims : List Molecule) : GameLevel :=
  ⟨projEntry target, sims.map projEntry⟩

/-- State threaded through prepare_game_dataset's loop: the levels built so
far and the used_molecules_paths set (as a membership list). -/
structure BuildState where
  levels : List GameLevel
  used : List String
deriving DecidableEq

/-- Success step of the level builder: append the level built from target
and similars, and add the target's then each similar's file path to the
used set. -/
def appendLevel (s : BuildState) (t : Molecule) (sims : List Molecule) : BuildState :=
  { levels := s.levels ++ [mkLevel t sims]
  , used := sims.foldl (fun u m => m.file_path :: u) (t.file_path :: s.used) }

/-- The level builder's for-loop over the ascending-sorted working set:
skip used targets, skip targets with fewer than two similar molecules,
otherwise consume target and similars, append the level, and break once
NUM_MOLECULES levels exist.  pool is the floor-filtered working set handed
to every find_similar_molecules call. -/
def buildLoop (pool : List Molecule) : BuildState → List Molecule → BuildState
  | s, [] => s
  | s, t :: rest =>
    if t.file_path ∈ s.used then buildLoop pool s rest
    else
      let sims := find_similar_molecules t pool SIMILARITY_THRESHOLD s.used
      if sims.length < 2 then buildLoop pool s rest
      else if NUM_MOLECULES ≤ (appendLevel s t sims).levels.length then appendLevel s t sims
      else buildLoop pool (appendLevel s t sims) rest

/-- prepare_game_dataset: floor filter, ascending sort, then the level
builder loop starting from no levels and an empty used set. -/
def prepare_game_dataset (molecules : List Molecule) (min_atoms : Nat) : List GameLevel :=
  let filtered := molecules.filter fun m => decide (min_atoms ≤ m.atom_count)
  (buildLoop filtered ⟨[], []⟩ (sortByKey (fun m => m.atom_count) filtered)).levels

/-- The file references of one level: the target's file then the similars'. -/
def levelRefFiles (l : GameLevel) : List String :=
  l.target.file :: l.similar.map fun e => e.file

/-- Every file reference of the whole level sequence, in order. -/
def allRefs (levels : List GameLevel) : List String := levels.flatMap levelRefFiles

/-- First molecule of the working set whose file's basename matches the
referenced name (main's inner resolution loop with its break). -/
def resolveRef (all_molecules : List Molecule) (fname : String) : Option Molecule :=
  all_molecules.find? fun m => basename m.file_path == fname

/-- molecules_to_copy_paths of main: the resolved source path of every file
reference of every level (a Python set; modelled as a membership list). -/
def collectCopyPaths (all_molecules : List Molecule) (levels : List GameLevel) : List String :=
  levels.flatMap fun l =>
    (levelRefFiles l).filterMap fun f => (resolveRef all_molecules f).map fun m => m.file_path

/-- molecules_to_copy of main: working-set molecules whose path was resolved
from some level reference. -/
def molecules_to_copy (all_molecules : List Molecule) (levels : List GameLevel) : List Molecule :=
  all_molecules.filter fun m => decide (m.file_path ∈ collectCopyPaths all_molecules levels)

/-- copy_selected_molecules as its copy plan: each selected molecule's
source path paired with its destination (target directory joined with the
source's basename). -/
def copy_selected_molecules (selected_molecules : List Molecule) (target_path : String) :
    List (String × String) :=
  selected_molecules.map fun m => (m.file_path, target_path ++ "/" ++ basename m.file_path)

/-- One run of the in-memory pipeline.  rngSeed stands for the state of the
imported random module: the import is the only trace of randomness in the
script, and no function consumes it, which this wrapper makes explicit. -/
def run_pipeline (rngSeed : Nat) (molecules : List Molecule) (num_to_select : Nat)
    (min_atoms : Nat) : List Molecule × List GameLevel :=
  (select_representative_molecules molecules num_to_select min_atoms,
   prepare_game_dataset molecules min_atoms)

/-- References into the store of Python list objects. -/
abbrev Ref := Nat

/-- Store of list objects, for the aliasing (no-caller-mutation) facts:
each cell is one Python list of molecule dicts; the dicts themselves are
never written by the script, so they appear as immutable values. -/
abbrev Store := List (List Molecule)

/-- Read a list cell. -/
def getRef (st : Store) (r : Ref) : List Molecule := st.getD r []

/-- Allocate a fresh list cell (list display / comprehension / slice). -/
def allocRef (st : Store) (v : List Molecule) : Store × Ref := (st ++ [v], st.length)

/-- Overwrite a list cell in place (list.sort). -/
def setRef (st : Store) (r : Ref) (v : List Molecule) : Store := st.set r v

/-- Escalation loop at the store level: each refilter builds a fresh list
and rebinds the similar_candidates variable to it. -/
def escalateHeap (target : Molecule) (pool : List Molecule) (exclude : List String)
    (max_diff : ℚ) : List ℚ → Store → Ref → Store × Ref
  | [], st, r => (st, r)
  | mult :: rest, st, r =>
    if (getRef st r).length < 2 then
      let a := allocRef st (simFilter target pool exclude (max_diff * mult))
      escalateHeap target pool exclude max_diff rest a.1 a.2
    else (st, r)

/-- find_similar_molecules at the store level: the candidate filters and the
fallback slice allocate fresh lists, and the two in-place sorts write only
to those fresh cells; the caller's pool cell is read, never written. -/
def find_similar_heap (st : Store) (poolRef : Ref) (target : Molecule)
    (similarity_threshold : ℚ) (exclude : List String) : Store × List Molecule :=
  let pool := getRef st poolRef
  let max_diff : ℚ := (target.atom_count : ℚ) * similarity_threshold
  let a1 := allocRef st (simFilter target pool exclude max_diff)
  let e :=
    if (getRef a1.1 a1.2).length < 2 then
      escalateHeap target pool exclude max_diff ESCALATION_MULTIPLIERS a1.1 a1.2
    else a1
  let f : Store × Ref :=
    if (getRef e.1 e.2).length < 2 then
      let c := allocRef e.1 (eligibleOf target pool exclude)
      let stc := setRef c.1 c.2 (sortByKey (simKey target) (getRef c.1 c.2))
      allocRef stc ((getRef stc c.2).take 2)
    else e
  let stFinal := setRef f.1 f.2 (sortByKey (simKey target) (getRef f.1 f.2))
  (stFinal, (getRef stFinal f.2).take 2)

/-- select_representative_molecules at the store level: the floor filter
rebinds the molecules variable to a fresh cell, and the in-place sort writes
that fresh cell, not the caller's. -/
def select_representative_heap (st : Store) (molRef : Ref) (num_to_select : Nat)
    (min_atoms : Nat) : Store × List Molecule :=
  let a := allocRef st ((getRef st molRef).filter fun m => decide (min_atoms ≤ m.atom_count))
  if getRef a.1 a.2 = [] then (a.1, [])
  else
    let st2 := setRef a.1 a.2 (sortByKey (fun m => m.atom_count) (getRef a.1 a.2))
    (st2, selectCore (getRef st2 a.2) num_to_select)

/-- prepare_game_dataset at the store level: the floor filter allocates a
fresh cell and sorted() copies it into another fresh cell; nothing is ever
written in place. -/
def prepare_game_dataset_heap (st : Store) (molRef : Ref) (min_atoms : Nat) :
    Store × List GameLevel :=
  let a := allocRef st ((getRef st molRef).filter fun m => decide (min_atoms ≤ m.atom_count))
  let b := allocRef a.1 (sortByKey (fun m => m.atom_count) (getRef a.1 a.2))
  (b.1, (buildLoop (getRef b.1 a.2) ⟨[], []⟩ (getRef b.1 b.2)).levels)

/-- Concatenated file paths of every molecule held in the bins of a key
list, in key order. -/
def binsConcat (keys : List Nat) (bins : Nat → List Molecule) : List String :=
  keys.foldr (fun k acc => ((bins k).map fun m => m.file_path) ++ acc) []

/-- Total number of molecules held in the bins of a key list. -/
def binTotal (keys : List Nat) (bins : Nat → List Molecule) : Nat :=
  (keys.map fun k => (bins k).length).sum

/-- Invariant carried through the representative selector's sweep loop: the
paths still binned together with the paths already selected are pairwise
distinct, the used set is exactly the selected paths, the live key list is a
duplicate-free sub-collection of all keys, keys pruned from the live list
have empty bins, and keys outside the key universe hold nothing. -/
structure SelInv (allKeys : List Nat) (s : SelState) : Prop where
  nodup : (binsConcat allKeys s.bins ++ s.selected.map fun m => m.file_path).Nodup
  usedIff : ∀ p, p ∈ s.used ↔ p ∈ s.selected.map fun m => m.file_path
  liveSub : ∀ k ∈ s.live, k ∈ allKeys
  liveNodup : s.live.Nodup
  deadEmpty : ∀ k ∈ allKeys, k ∉ s.live → s.bins k = []
  offKeysEmpty : ∀ k, k ∉ allKeys → s.bins k = []

/-- Invariant carried through the level builder's loop: the file references
emitted so far are pairwise distinct, and each comes from a pool molecule
whose path has been recorded in the used set. -/
def BuildInv (pool : List Molecule) (s : BuildState) : Prop :=
  (allRefs s.levels).Nodup ∧
  ∀ f ∈ allRefs s.levels, ∃ m ∈ pool, m.file_name = f ∧ m.file_path ∈ s.used

/-- Fixture molecule used by witness theorems (atom count 10). -/
def tW : Molecule := ⟨"db/t.mol2", "T", 10, 0, 0, 0, 0, "t.mol2"⟩

/-- Fixture molecule used by witness theorems (atom count 10). -/
def aW : Molecule := ⟨"db/a.mol2", "A", 10, 0, 0, 0, 0, "a.mol2"⟩

/-- Fixture molecule used by witness theorems (atom count 11). -/
def bW : Molecule := ⟨"db/b.mol2", "B", 11, 0, 0, 0, 0, "b.mol2"⟩

/-- Fixture molecule used by witness theorems (atom count 12). -/
def cW : Molecule := ⟨"db/c.mol2", "C", 12, 0, 0, 0, 0, "c.mol2"⟩

/-- Fixture working set used by witness theorems. -/
def poolW : List Molecule := [tW, aW, bW, cW]

/-- Fixture raw record whose atom-count token is absent (witness for C6). -/
def rawW : RawMol2 := ⟨true, none, none, 0, 0, 0, 0⟩

/-! Stable-sort lemmas: permutation, sortedness, stability, fixpoint. -/

lemma insertByKey_perm {α : Type} (key : α → Nat) (x : α) (l : List α) :
    (insertByKey key x l).Perm (x :: l) := by
  induction l with
  | nil => simp [insertByKey]
  | cons y ys ih =>
    by_cases h : key x ≤ key y
    · simp [insertByKey, h]
    · simp only [insertByKey, if_neg h]
      exact (ih.cons y).trans (List.Perm.swap x y ys)

lemma sortByKey_perm {α : Type} (key : α → Nat) (l : List α) : (sortByKey key l).Perm l := by
  induction l with
  | nil => simp [sortByKey]
  | cons x xs ih => exact (insertByKey_perm key x _).trans (ih.cons x)

lemma mem_sortByKey {α : Type} {key : α → Nat} {l : List α} {a : α} :
    a ∈ sortByKey key l ↔ a ∈ l :=
  (sortByKey_perm key l).mem_iff

lemma length_sortByKey {α : Type} (key : α → Nat) (l : List α) :
    (sortByKey key l).length = l.length :=
  (sortByKey_perm key l).length_eq

lemma pairwise_insertByKey {α : Type} (key : α → Nat) (x : α) (l : List α)
    (h : l.Pairwise fun a b => key a ≤ key b) :
    (insertByKey key x l).Pairwise fun a b => key a ≤ key b := by
  induction l with
  | nil => simp [insertByKey]
  | cons y ys ih =>
    rcases List.pairwise_cons.mp h with ⟨hy, hys⟩
    by_cases hxy : key x ≤ key y
    · simp only [insertByKey, if_pos hxy]
      refine List.pairwise_cons.mpr ⟨?_, h⟩
      intro z hz
      rcases List.mem_cons.mp hz with rfl | hz'
      · exact hxy
      · exact le_trans hxy (hy z hz')
    · simp only [insertByKey, if_neg hxy]
      refine List.pairwise_cons.mpr ⟨?_, ih hys⟩
      intro z hz
      have hz' : z = x ∨ z ∈ ys := by
        have := (insertByKey_perm key x ys).mem_iff.mp hz
        simpa using this
      rcases hz' with rfl | hz'
      · exact Nat.le_of_not_le hxy
      · exact hy z hz'

lemma sortByKey_sorted {α : Type} (key : α → Nat) (l : List α) :
    (sortByKey key l).Pairwise fun a b => key a ≤ key b := by
  induction l with
  | nil => simp [sortByKey]
  | cons x xs ih => exact pairwise_insertByKey key x _ ih

lemma filter_insertByKey {α : Type} (key : α → Nat) (x : α) (l : List α) (d : Nat) :
    (insertByKey key x l).filter (fun a => decide (key a = d)) =
      if key x = d then x :: l.filter (fun a => decide (key a = d))
      else l.filter (fun a => decide (key a = d)) := by
  induction l with
  | nil => by_cases h : key x = d <;> simp [insertByKey, h]
  | cons y ys ih =>
    by_cases hxy : key x ≤ key y
    · simp only [insertByKey, if_pos hxy, List.filter_cons]
      by_cases h : key x = d <;> by_cases hy : key y = d <;> simp [h, hy]
    · have hyx : key y < key x := Nat.lt_of_not_le hxy
      simp only [insertByKey, if_neg hxy, List.filter_cons, ih]
      by_cases h : key x = d
      · have hy : ¬ key y = d := by omega
        simp [h, hy]
      · by_cases hy : key y = d <;> simp [h, hy]

lemma sortByKey_filter_key {α : Type} (key : α → Nat) (l : List α) (d : Nat) :
    (sortByKey key l).filter (fun a => decide (key a = d)) =
      l.filter (fun a => decide (key a = d)) := by
  induction l with
  | nil => rfl
  | cons x xs ih =>
    simp only [sortByKey, filter_insertByKey, List.filter_cons, ih]
    by_cases h : key x = d <;> simp [h]

lemma sortByKey_of_pairwise {α : Type} (key : α → Nat) (l : List α)
    (h : l.Pairwise fun a b => key a ≤ key b) : sortByKey key l = l := by
  induction l with
  | nil => rfl
  | cons x xs ih =>
    rcases List.pairwise_cons.mp h with ⟨hx, hxs⟩
    have hs : sortByKey key xs = xs := ih hxs
    cases xs with
    | nil => simp [sortByKey, insertByKey]
    | cons y ys =>
      simp only [sortByKey] at hs ⊢
      rw [hs]
      simp [insertByKey, hx y (by simp)]

/-! Similarity-matcher lemmas. -/

lemma mem_simFilter {t : Molecule} {pool : List Molecule} {excl : List String} {b : ℚ}
    {m : Molecule} :
    m ∈ simFilter t pool excl b ↔
      m ∈ pool ∧ (simKey t m : ℚ) ≤ b ∧ m.file_path ≠ t.file_path ∧ m.file_path ∉ excl := by
  simp [simFilter, List.mem_filter]

lemma mem_eligibleOf {t : Molecule} {pool : List Molecule} {excl : List String} {m : Molecule} :
    m ∈ eligibleOf t pool excl ↔
      m ∈ pool ∧ m.file_path ≠ t.file_path ∧ m.file_path ∉ excl := by
  simp [eligibleOf, List.mem_filter]

lemma simFilter_eq_filter_eligible (t : Molecule) (pool : List Molecule) (excl : List String)
    (b : ℚ) :
    simFilter t pool excl b =
      (eligibleOf t pool excl).filter fun m => decide ((simKey t m : ℚ) ≤ b) := by
  unfold simFilter eligibleOf
  rw [List.filter_filter]
  refine List.filter_congr fun m _ => ?_
  simp [Bool.decide_and]

lemma escalateLoop_of_two_le (t : Molecule) (pool : List Molecule) (excl : List String)
    (md : ℚ) (muls : List ℚ) (cur : List Molecule) (h : 2 ≤ cur.length) :
    escalateLoop t pool excl md muls cur = cur := by
  cases muls with
  | nil => rfl
  | cons m ms => simp [escalateLoop, Nat.not_lt.mpr h]

lemma escalateLoop_shape (t : Molecule) (pool : List Molecule) (excl : List String) (md : ℚ) :
    ∀ (muls : List ℚ) (cur : List Molecule),
      escalateLoop t pool excl md muls cur = cur ∨
        ∃ mult ∈ muls,
          escalateLoop t pool excl md muls cur = simFilter t pool excl (md * mult) := by
  intro muls
  induction muls with
  | nil => intro cur; left; rfl
  | cons m ms ih =>
    intro cur
    by_cases h : cur.length < 2
    · simp only [escalateLoop, if_pos h]
      rcases ih (simFilter t pool excl (md * m)) with h1 | ⟨mult, hm, h2⟩
      · right; exact ⟨m, by simp, h1⟩
      · right; exact ⟨mult, by simp [hm], h2⟩
    · left; simp [escalateLoop, h]

lemma find_similar_shape (t : Molecule) (pool : List Molecule) (thr : ℚ) (excl : List String) :
    (∃ b : ℚ, 2 ≤ (simFilter t pool excl b).length ∧
        find_similar_molecules t pool thr excl =
          (sortByKey (simKey t) (simFilter t pool excl b)).take 2) ∨
      find_similar_molecules t pool thr excl =
        (sortByKey (simKey t) (eligibleOf t pool excl)).take 2 := by
  unfold find_similar_molecules
  set md : ℚ := (t.atom_count : ℚ) * thr with hmd
  by_cases hb : (simFilter t pool excl md).length < 2
  · simp only [if_pos hb]
    rcases escalateLoop_shape t pool excl md ESCALATION_MULTIPLIERS (simFilter t pool excl md)
      with hesc | ⟨mult, _, hesc⟩ <;> rw [hesc]
    · simp only [if_pos hb]
      right
      have hst : ((sortByKey (simKey t) (eligibleOf t pool excl)).take 2).Pairwise
          fun a b => simKey t a ≤ simKey t b :=
        (sortByKey_sorted _ _).sublist (List.take_sublist 2 _)
      rw [sortByKey_of_pairwise _ _ hst, List.take_take]
      norm_num
    · by_cases h2 : (simFilter t pool excl (md * mult)).length < 2
      · simp only [if_pos h2]
        right
        have hst : ((sortByKey (simKey t) (eligibleOf t pool excl)).take 2).Pairwise
            fun a b => simKey t a ≤ simKey t b :=
          (sortByKey_sorted _ _).sublist (List.take_sublist 2 _)
        rw [sortByKey_of_pairwise _ _ hst, List.take_take]
        norm_num
      · simp only [if_neg h2]
        left
        exact ⟨md * mult, Nat.not_lt.mp h2, rfl⟩
  · simp only [if_neg hb, if_neg hb]
    left
    exact ⟨md, Nat.not_lt.mp hb, rfl⟩

lemma length_simFilter_le (t : Molecule) (pool : List Molecule) (excl : List String) (b : ℚ) :
    (simFilter t pool excl b).length ≤ (eligibleOf t pool excl).length := by
  rw [simFilter_eq_filter_eligible]
  exact List.length_filter_le _ _

lemma find_similar_length (t : Molecule) (pool : List Molecule) (thr : ℚ) (excl : List String) :
    (find_similar_molecules t pool thr excl).length = min 2 (eligibleOf t pool excl).length := by
  rcases find_similar_shape t pool thr excl with ⟨b, hb, heq⟩ | heq <;> rw [heq]
  · have hle := length_simFilter_le t pool excl b
    rw [List.length_take, length_sortByKey]
    omega
  · rw [List.length_take, length_sortByKey]

lemma mem_find_similar {t : Molecule} {pool : List Molecule} {thr : ℚ} {excl : List String}
    {m : Molecule} (h : m ∈ find_similar_molecules t pool thr excl) :
    m ∈ pool ∧ m.file_path ≠ t.file_path ∧ m.file_path ∉ excl := by
  rcases find_similar_shape t pool thr excl with ⟨b, _, heq⟩ | heq <;> rw [heq] at h <;>
    have hm := mem_sortByKey.mp (List.mem_of_mem_take h)
  · refine mem_eligibleOf.mp ?_
    rw [simFilter_eq_filter_eligible] at hm
    exact (List.mem_filter.mp hm).1
  · exact mem_eligibleOf.mp hm

lemma find_similar_pathsNodup {t : Molecule} {pool : List Molecule} {thr : ℚ}
    {excl : List String} (hp : (pool.map fun m => m.file_path).Nodup) :
    ((find_similar_molecules t pool thr excl).map fun m => m.file_path).Nodup := by
  have base : ∀ X : List Molecule, (X.map fun m => m.file_path).Nodup →
      (((sortByKey (simKey t) X).take 2).map fun m => m.file_path).Nodup := by
    intro X hX
    have hperm : (X.map fun m => m.file_path).Perm
        ((sortByKey (simKey t) X).map fun m => m.file_path) :=
      ((sortByKey_perm (simKey t) X).map _).symm
    have hs : (((sortByKey (simKey t) X).take 2).map fun m => m.file_path).Sublist
        ((sortByKey (simKey t) X).map fun m => m.file_path) :=
      (List.take_sublist 2 _).map _
    exact hs.nodup (hperm.nodup hX)
  have hfilter : ∀ p : Molecule → Bool, ((pool.filter p).map fun m => m.file_path).Nodup :=
    fun p => ((List.filter_sublist pool).map _).nodup hp
  rcases find_similar_shape t pool thr excl with ⟨b, _, heq⟩ | heq <;> rw [heq]
  · exact base _ (hfilter _)
  · exact base _ (hfilter _)

/-- C2: the Similarity Matcher returns at most 2 molecules, fewer than 2
exactly when the pool minus the target and the exclusions has fewer than 2
members; the result is sorted by ascending absolute atom-count difference,
and within each difference class it is a prefix of the eligible pool in its
original order (stable tie-break). -/
theorem find_similar_spec (t : Molecule) (pool : List Molecule) (thr : ℚ)
    (excl : List String) :
    (find_similar_molecules t pool thr excl).length ≤ 2 ∧
    ((find_similar_molecules t pool thr excl).length < 2 ↔
      (eligibleOf t pool excl).length < 2) ∧
    (find_similar_molecules t pool thr excl).Pairwise
      (fun a b => simKey t a ≤ simKey t b) ∧
    (∀ d : Nat,
      (find_similar_molecules t pool thr excl).filter (fun m => decide (simKey t m = d)) <+:
        (eligibleOf t pool excl).filter (fun m => decide (simKey t m = d))) := by
  refine ⟨?_, ?_, ?_, ?_⟩
  · rw [find_similar_length]; omega
  · rw [find_similar_length]; omega
  · rcases find_similar_shape t pool thr excl with ⟨b, _, heq⟩ | heq <;> rw [heq] <;>
      exact (sortByKey_sorted _ _).sublist (List.take_sublist 2 _)
  · intro d
    have takePre : ∀ X : List Molecule,
        ((sortByKey (simKey t) X).take 2).filter (fun m => decide (simKey t m = d)) <+:
          (sortByKey (simKey t) X).filter (fun m => decide (simKey t m = d)) := by
      intro X
      exact List.IsPrefix.filter _ ⟨(sortByKey (simKey t) X).drop 2, List.take_append_drop 2 _⟩
    rcases find_similar_shape t pool thr excl with ⟨b, _, heq⟩ | heq <;> rw [heq]
    · refine (takePre _).trans ?_
      rw [sortByKey_filter_key, simFilter_eq_filter_eligible, List.filter_comm]
      by_cases hd : ((d : ℚ) ≤ b)
      · have : ((eligibleOf t pool excl).filter fun m => decide (simKey t m = d)).filter
            (fun m => decide ((simKey t m : ℚ) ≤ b)) =
            (eligibleOf t pool excl).filter fun m => decide (simKey t m = d) := by
          refine List.filter_eq_self.mpr fun a ha => ?_
          have hk : simKey t a = d := by
            have := (List.mem_filter.mp ha).2
            simpa using this
          simp [hk, hd]
        rw [this]
      · have : ((eligibleOf t pool excl).filter fun m => decide (simKey t m = d)).filter
            (fun m => decide ((simKey t m : ℚ) ≤ b)) = [] := by
          refine List.filter_eq_nil_iff.mpr fun a ha => ?_
          have hk : simKey t a = d := by
            have := (List.mem_filter.mp ha).2
            simpa using this
          simp [hk, hd]
        rw [this]
        exact List.nil_prefix
    · refine (takePre _).trans ?_
      rw [sortByKey_filter_key]

/-! Escalation-pass lemmas and the C3 theorem. -/

lemma sort_take_sort {α : Type} (key : α → Nat) (X : List α) :
    (sortByKey key ((sortByKey key X).take 2)).take 2 = (sortByKey key X).take 2 := by
  have hst : ((sortByKey key X).take 2).Pairwise fun a b => key a ≤ key b :=
    (sortByKey_sorted _ _).sublist (List.take_sublist 2 _)
  rw [sortByKey_of_pairwise _ _ hst, List.take_take]
  norm_num

lemma escalateLoop_all_fail (t : Molecule) (pool : List Molecule) (excl : List String)
    (md : ℚ) :
    ∀ (muls : List ℚ) (cur : List Molecule),
      (∀ m ∈ muls, (simFilter t pool excl (md * m)).length < 2) → cur.length < 2 →
      (escalateLoop t pool excl md muls cur).length < 2 := by
  intro muls
  induction muls with
  | nil => intro cur _ hc; exact hc
  | cons m ms ih =>
    intro cur hall hc
    simp only [escalateLoop, if_pos hc]
    exact ih _ (fun x hx => hall x (by simp [hx])) (hall m (by simp))

lemma escalateLoop_first_success (t : Molecule) (pool : List Molecule) (excl : List String)
    (md : ℚ) :
    ∀ (muls : List ℚ) (cur : List Molecule) (m₀ : ℚ),
      muls.Pairwise (· < ·) → m₀ ∈ muls →
      (∀ m ∈ muls, m < m₀ → (simFilter t pool excl (md * m)).length < 2) →
      2 ≤ (simFilter t pool excl (md * m₀)).length →
      cur.length < 2 →
      escalateLoop t pool excl md muls cur = simFilter t pool excl (md * m₀) := by
  intro muls
  induction muls with
  | nil => intro cur m₀ _ hm; simp at hm
  | cons q qs ih =>
    intro cur m₀ hpw hm hlt hs hc
    rcases List.pairwise_cons.mp hpw with ⟨hq, hqs⟩
    simp only [escalateLoop, if_pos hc]
    rcases List.mem_cons.mp hm with rfl | hm'
    · exact escalateLoop_of_two_le t pool excl md qs _ hs
    · have hqfail : (simFilter t pool excl (md * q)).length < 2 :=
        hlt q (by simp) (hq m₀ hm')
      exact ih _ m₀ hqs hm' (fun m hmq hlt' => hlt m (by simp [hmq]) hlt') hs hqfail

lemma escalation_multipliers_sorted : ESCALATION_MULTIPLIERS.Pairwise (· < ·) := by
  simp only [ESCALATION_MULTIPLIERS, List.pairwise_cons, List.mem_cons, List.mem_singleton,
    List.not_mem_nil, List.Pairwise.nil]
  norm_num

/-- C3: find_similar_molecules proceeds in escalating passes.  If the base
threshold filter already holds 2 candidates, the result is its sorted first
two.  Otherwise the multipliers 1.5, 2, ..., 5 are tried in order and the
first one whose filter holds 2 candidates supplies the result.  If every
multiplier fails, the threshold is ignored and the two globally closest
eligible candidates are taken. -/
theorem find_similar_escalation (t : Molecule) (pool : List Molecule) (thr : ℚ)
    (excl : List String) :
    (2 ≤ (simFilter t pool excl ((t.atom_count : ℚ) * thr)).length →
      find_similar_molecules t pool thr excl =
        (sortByKey (simKey t) (simFilter t pool excl ((t.atom_count : ℚ) * thr))).take 2) ∧
    ((simFilter t pool excl ((t.atom_count : ℚ) * thr)).length < 2 →
      ∀ m₀ ∈ ESCALATION_MULTIPLIERS,
        2 ≤ (simFilter t pool excl ((t.atom_count : ℚ) * thr * m₀)).length →
        (∀ m ∈ ESCALATION_MULTIPLIERS, m < m₀ →
          (simFilter t pool excl ((t.atom_count : ℚ) * thr * m)).length < 2) →
        find_similar_molecules t pool thr excl =
          (sortByKey (simKey t)
            (simFilter t pool excl ((t.atom_count : ℚ) * thr * m₀))).take 2) ∧
    ((simFilter t pool excl ((t.atom_count : ℚ) * thr)).length < 2 →
      (∀ m ∈ ESCALATION_MULTIPLIERS,
        (simFilter t pool excl ((t.atom_count : ℚ) * thr * m)).length < 2) →
      find_similar_molecules t pool thr excl =
        (sortByKey (simKey t) (eligibleOf t pool excl)).take 2) := by
  refine ⟨?_, ?_, ?_⟩
  · intro h
    unfold find_similar_molecules
    simp only [if_neg (Nat.not_lt.mpr h)]
  · intro hbase m₀ hm hs hlt
    unfold find_similar_molecules
    simp only [if_pos hbase]
    rw [escalateLoop_first_success t pool excl _ ESCALATION_MULTIPLIERS _ m₀
      escalation_multipliers_sorted hm (fun m hmm hmlt => hlt m hmm hmlt) hs hbase]
    simp only [if_neg (Nat.not_lt.mpr hs)]
  · intro hbase hall
    unfold find_similar_molecules
    simp only [if_pos hbase]
    have hesc := escalateLoop_all_fail t pool excl _ ESCALATION_MULTIPLIERS _ hall hbase
    simp only [if_pos hesc]
    exact sort_take_sort _ _

/-- Witness for C3 at a concrete input: a pool where the base threshold pass
already holds two candidates, so the first conjunct yields the base-pass
result. -/
theorem find_similar_escalation_witness :
    2 ≤ (simFilter tW poolW [] ((tW.atom_count : ℚ) * (1 / 5))).length ∧
    find_similar_molecules tW poolW (1 / 5) [] =
      (sortByKey (simKey tW) (simFilter tW poolW [] ((tW.atom_count : ℚ) * (1 / 5)))).take 2 := by
  have h : 2 ≤ (simFilter tW poolW [] ((tW.atom_count : ℚ) * (1 / 5))).length := by
    norm_num [simFilter, simKey, poolW, tW, aW, bW, cW, List.filter_cons]
    decide
  exact ⟨h, (find_similar_escalation tW poolW (1 / 5) []).1 h⟩

/-! Level-builder lemmas. -/

lemma mem_appendLevel_used {s : BuildState} {t : Molecule} {sims : List Molecule} {p : String} :
    p ∈ (appendLevel s t sims).used ↔
      (∃ m ∈ sims, m.file_path = p) ∨ p = t.file_path ∨ p ∈ s.used := by
  have haux : ∀ (L : List Molecule) (u0 : List String),
      p ∈ L.foldl (fun u m => m.file_path :: u) u0 ↔ (∃ m ∈ L, m.file_path = p) ∨ p ∈ u0 := by
    intro L
    induction L with
    | nil => intro u0; simp
    | cons m ms ih =>
      intro u0
      simp only [List.foldl_cons, ih, List.mem_cons]
      constructor
      · rintro (⟨x, hx, rfl⟩ | (rfl | hu))
        · exact Or.inl ⟨x, by simp [hx]⟩
        · exact Or.inl ⟨m, by simp⟩
        · exact Or.inr hu
      · rintro (⟨x, hx, rfl⟩ | hu)
        · rcases hx with rfl | hx'
          · exact Or.inr (Or.inl rfl)
          · exact Or.inl ⟨x, hx', rfl⟩
        · exact Or.inr (Or.inr hu)
  show p ∈ sims.foldl (fun u m => m.file_path :: u) (t.file_path :: s.used) ↔ _
  rw [haux, List.mem_cons]

lemma allRefs_append (l1 l2 : List GameLevel) :
    allRefs (l1 ++ l2) = allRefs l1 ++ allRefs l2 := by
  simp [allRefs]

lemma allRefs_single_mkLevel (t : Molecule) (sims : List Molecule) :
    allRefs [mkLevel t sims] = t.file_name :: sims.map fun m => m.file_name := by
  simp [allRefs, levelRefFiles, mkLevel, projEntry, List.map_map, Function.comp]

lemma appendLevel_inv (pool : List Molecule)
    (hpaths : (pool.map fun m => m.file_path).Nodup)
    (hinj : ∀ m1 ∈ pool, ∀ m2 ∈ pool, m1.file_name = m2.file_name → m1.file_path = m2.file_path)
    (s : BuildState) (t : Molecule)
    (h1 : t.file_path ∉ s.used) (ht : t ∈ pool) (hs : BuildInv pool s) :
    BuildInv pool (appendLevel s t (find_similar_molecules t pool SIMILARITY_THRESHOLD s.used)) := by
  set sims := find_similar_molecules t pool SIMILARITY_THRESHOLD s.used with hsims
  have hsimmem : ∀ m ∈ sims, m ∈ pool ∧ m.file_path ≠ t.file_path ∧ m.file_path ∉ s.used :=
    fun m hm => mem_find_similar hm
  have hsimnodup : (sims.map fun m => m.file_path).Nodup := find_similar_pathsNodup hpaths
  have hlevels : (appendLevel s t sims).levels = s.levels ++ [mkLevel t sims] := rfl
  constructor
  · rw [hlevels, allRefs_append]
    refine List.nodup_append.mpr ⟨hs.1, ?_, ?_⟩
    · rw [allRefs_single_mkLevel]
      refine List.nodup_cons.mpr ⟨?_, ?_⟩
      · intro hmem
        rcases List.mem_map.mp hmem with ⟨m, hm, hfn⟩
        have := hinj m (hsimmem m hm).1 t ht hfn
        exact (hsimmem m hm).2.1 this
      · refine List.Nodup.map_on ?_ hsimnodup.of_map
        intro x hx y hy hxy
        have hpx := hinj x (hsimmem x hx).1 y (hsimmem y hy).1 hxy
        exact List.inj_on_of_nodup_map hsimnodup hx hy hpx
    · intro f hfold hfnew
      rcases hs.2 f hfold with ⟨m', hm', hfn', hused'⟩
      rw [allRefs_single_mkLevel, List.mem_cons] at hfnew
      rcases hfnew with rfl | hfnew
      · exact h1 (hinj m' hm' t ht hfn' ▸ hused')
      · rcases List.mem_map.mp hfnew with ⟨m, hm, hfn⟩
        have hp := hinj m' hm' m (hsimmem m hm).1 (hfn'.trans hfn.symm)
        exact (hsimmem m hm).2.2 (hp ▸ hused')
  · intro f hf
    rw [hlevels, allRefs_append, List.mem_append] at hf
    rcases hf with hf | hf
    · rcases hs.2 f hf with ⟨m, hm, hfn, hu⟩
      exact ⟨m, hm, hfn, mem_appendLevel_used.mpr (Or.inr (Or.inr hu))⟩
    · rw [allRefs_single_mkLevel, List.mem_cons] at hf
      rcases hf with rfl | hf
      · exact ⟨t, ht, rfl, mem_appendLevel_used.mpr (Or.inr (Or.inl rfl))⟩
      · rcases List.mem_map.mp hf with ⟨m, hm, hfn⟩
        exact ⟨m, (hsimmem m hm).1, hfn,
          mem_appendLevel_used.mpr (Or.inl ⟨m, hm, rfl⟩)⟩

lemma buildLoop_inv (pool : List Molecule)
    (hpaths : (pool.map fun m => m.file_path).Nodup)
    (hinj : ∀ m1 ∈ pool, ∀ m2 ∈ pool, m1.file_name = m2.file_name → m1.file_path = m2.file_path) :
    ∀ (ms : List Molecule) (s : BuildState), (∀ m ∈ ms, m ∈ pool) →
      BuildInv pool s → BuildInv pool (buildLoop pool s ms) := by
  intro ms
  induction ms with
  | nil => intro s _ hs; exact hs
  | cons t rest ih =>
    intro s hmem hs
    have ht : t ∈ pool := hmem t (by simp)
    have hrest : ∀ m ∈ rest, m ∈ pool := fun m hm => hmem m (by simp [hm])
    simp only [buildLoop]
    by_cases h1 : t.file_path ∈ s.used
    · simp only [if_pos h1]; exact ih s hrest hs
    · simp only [if_neg h1]
      by_cases h2 : (find_similar_molecules t pool SIMILARITY_THRESHOLD s.used).length < 2
      · simp only [if_pos h2]; exact ih s hrest hs
      · simp only [if_neg h2]
        have hstep := appendLevel_inv pool hpaths hinj s t h1 ht hs
        by_cases h3 : NUM_MOLECULES ≤
            (appendLevel s t (find_similar_molecules t pool SIMILARITY_THRESHOLD s.used)).levels.length
        · simp only [if_pos h3]; exact hstep
        · simp only [if_neg h3]; exact ih _ hrest hstep

lemma buildLoop_used_mono (pool : List Molecule) :
    ∀ (ms : List Molecule) (s : BuildState) (p : String),
      p ∈ s.used → p ∈ (buildLoop pool s ms).used := by
  intro ms
  induction ms with
  | nil => intro s p hp; exact hp
  | cons t rest ih =>
    intro s p hp
    simp only [buildLoop]
    by_cases h1 : t.file_path ∈ s.used
    · simp only [if_pos h1]; exact ih s p hp
    · simp only [if_neg h1]
      by_cases h2 : (find_similar_molecules t pool SIMILARITY_THRESHOLD s.used).length < 2
      · simp only [if_pos h2]; exact ih s p hp
      · simp only [if_neg h2]
        have hp' : p ∈ (appendLevel s t
            (find_similar_molecules t pool SIMILARITY_THRESHOLD s.used)).used :=
          mem_appendLevel_used.mpr (Or.inr (Or.inr hp))
        by_cases h3 : NUM_MOLECULES ≤
            (appendLevel s t (find_similar_molecules t pool SIMILARITY_THRESHOLD s.used)).levels.length
        · simp only [if_pos h3]; exact hp'
        · simp only [if_neg h3]; exact ih _ p hp'

lemma buildLoop_targets_sublist (pool : List Molecule) :
    ∀ (ms : List Molecule) (s : BuildState), ∃ Δ : List GameLevel,
      (buildLoop pool s ms).levels = s.levels ++ Δ ∧
      (Δ.map fun l => l.target).Sublist (ms.map projEntry) := by
  intro ms
  induction ms with
  | nil => intro s; exact ⟨[], by simp [buildLoop], by simp⟩
  | cons t rest ih =>
    intro s
    simp only [buildLoop]
    by_cases h1 : t.file_path ∈ s.used
    · rcases ih s with ⟨Δ, hΔ, hsub⟩
      exact ⟨Δ, by simp [if_pos h1, hΔ], by simp only [List.map_cons]; exact hsub.cons _⟩
    · simp only [if_neg h1]
      by_cases h2 : (find_similar_molecules t pool SIMILARITY_THRESHOLD s.used).length < 2
      · rcases ih s with ⟨Δ, hΔ, hsub⟩
        exact ⟨Δ, by simp [if_pos h2, hΔ], by simp only [List.map_cons]; exact hsub.cons _⟩
      · simp only [if_pos h2, if_neg h2]
        by_cases h3 : NUM_MOLECULES ≤
            (appendLevel s t (find_similar_molecules t pool SIMILARITY_THRESHOLD s.used)).levels.length
        · refine ⟨[mkLevel t (find_similar_molecules t pool SIMILARITY_THRESHOLD s.used)],
            by rw [if_pos h3]; rfl, ?_⟩
          simp only [List.map_cons, List.map_nil]
          have : (mkLevel t (find_similar_molecules t pool SIMILARITY_THRESHOLD s.used)).target =
              projEntry t := rfl
          rw [this]
          exact (List.nil_sublist _).cons₂ _
        · rcases ih (appendLevel s t (find_similar_molecules t pool SIMILARITY_THRESHOLD s.used))
            with ⟨Δ, hΔ, hsub⟩
          refine ⟨mkLevel t (find_similar_molecules t pool SIMILARITY_THRESHOLD s.used) :: Δ, ?_, ?_⟩
          · rw [if_neg h3, hΔ]
            simp [appendLevel]
          · simp only [List.map_cons]
            have : (mkLevel t (find_similar_molecules t pool SIMILARITY_THRESHOLD s.used)).target =
                projEntry t := rfl
            rw [this]
            exact hsub.cons₂ _

lemma buildLoop_length_cap (pool : List Molecule) :
    ∀ (ms : List Molecule) (s : BuildState), s.levels.length < NUM_MOLECULES →
      (buildLoop pool s ms).levels.length ≤ NUM_MOLECULES := by
  intro ms
  induction ms with
  | nil => intro s hlt; exact Nat.le_of_lt hlt
  | cons t rest ih =>
    intro s hlt
    simp only [buildLoop]
    by_cases h1 : t.file_path ∈ s.used
    · simp only [if_pos h1]; exact ih s hlt
    · simp only [if_neg h1]
      by_cases h2 : (find_similar_molecules t pool SIMILARITY_THRESHOLD s.used).length < 2
      · simp only [if_pos h2]; exact ih s hlt
      · simp only [if_neg h2]
        have hlen : (appendLevel s t
            (find_similar_molecules t pool SIMILARITY_THRESHOLD s.used)).levels.length =
            s.levels.length + 1 := by
          simp [appendLevel]
        by_cases h3 : NUM_MOLECULES ≤
            (appendLevel s t (find_similar_molecules t pool SIMILARITY_THRESHOLD s.used)).levels.length
        · simp only [if_pos h3]; omega
        · simp only [if_neg h3]
          refine ih _ ?_
          omega

/-- C4: the Level Builder emits at most NUM_MOLECULES levels and at most one
level per eligible molecule, and the sequence of level targets is a
subsequence of the ascending-sorted eligible working set, so target atom
counts are non-decreasing with ties resolved by encounter order in the
sorted working set. -/
theorem prepare_game_dataset_order (pool : List Molecule) (min_atoms : Nat) :
    (prepare_game_dataset pool min_atoms).length ≤ NUM_MOLECULES ∧
    (prepare_game_dataset pool min_atoms).length ≤
      (pool.filter fun m => decide (min_atoms ≤ m.atom_count)).length ∧
    ((prepare_game_dataset pool min_atoms).map fun l => l.target).Sublist
      ((sortByKey (fun m => m.atom_count)
        (pool.filter fun m => decide (min_atoms ≤ m.atom_count))).map projEntry) ∧
    ((prepare_game_dataset pool min_atoms).map fun l => l.target.atom_count).Pairwise
      (· ≤ ·) := by
  set filtered := pool.filter fun m => decide (min_atoms ≤ m.atom_count) with hf
  set sorted := sortByKey (fun m => m.atom_count) filtered with hsorted
  rcases buildLoop_targets_sublist filtered sorted ⟨[], []⟩ with ⟨Δ, hΔ, hsub⟩
  have hpre : prepare_game_dataset pool min_atoms = Δ := by
    show (buildLoop filtered ⟨[], []⟩ sorted).levels = Δ
    rw [hΔ]
    simp
  have hcap : (buildLoop filtered ⟨[], []⟩ sorted).levels.length ≤ NUM_MOLECULES :=
    buildLoop_length_cap filtered sorted ⟨[], []⟩ (by norm_num [NUM_MOLECULES])
  refine ⟨?_, ?_, ?_, ?_⟩
  · rw [hpre]
    have : (buildLoop filtered ⟨[], []⟩ sorted).levels.length = Δ.length := by
      rw [hΔ]; simp
    omega
  · rw [hpre]
    have h1 : (Δ.map fun l => l.target).length ≤ (sorted.map projEntry).length :=
      hsub.length_le
    have h2 : sorted.length = filtered.length := length_sortByKey _ _
    simp only [List.length_map] at h1
    omega
  · rw [hpre]; exact hsub
  · rw [hpre]
    have hmap : (Δ.map fun l => l.target.atom_count) =
        ((Δ.map fun l => l.target).map fun e => e.atom_count) := by
      simp [List.map_map, Function.comp]
    rw [hmap]
    have hs2 : ((sorted.map projEntry).map fun e => e.atom_count).Pairwise (· ≤ ·) := by
      have : ((sorted.map projEntry).map fun e => e.atom_count) =
          sorted.map fun m => m.atom_count := by
        simp [List.map_map, Function.comp, projEntry]
      rw [this, List.pairwise_map]
      exact sortByKey_sorted _ _
    exact hs2.sublist (hsub.map _)

/-- C1: no file reference is emitted twice across the whole level sequence,
and the used set grows monotonically (paths are only ever added) along the
builder's loop. -/
theorem prepare_game_dataset_no_reuse (pool : List Molecule) (min_atoms : Nat)
    (hpaths : (pool.map fun m => m.file_path).Nodup)
    (hinj : ∀ m1 ∈ pool, ∀ m2 ∈ pool, m1.file_name = m2.file_name →
      m1.file_path = m2.file_path) :
    (allRefs (prepare_game_dataset pool min_atoms)).Nodup ∧
    ∀ (s : BuildState) (ms : List Molecule) (p : String), p ∈ s.used →
      p ∈ (buildLoop (pool.filter fun m => decide (min_atoms ≤ m.atom_count)) s ms).used := by
  constructor
  · set filtered := pool.filter fun m => decide (min_atoms ≤ m.atom_count) with hf
    have hpaths' : (filtered.map fun m => m.file_path).Nodup :=
      ((List.filter_sublist pool).map _).nodup hpaths
    have hinj' : ∀ m1 ∈ filtered, ∀ m2 ∈ filtered, m1.file_name = m2.file_name →
        m1.file_path = m2.file_path := fun m1 h1 m2 h2 =>
      hinj m1 (List.mem_of_mem_filter h1) m2 (List.mem_of_mem_filter h2)
    have hinv := buildLoop_inv filtered hpaths' hinj'
      (sortByKey (fun m => m.atom_count) filtered) ⟨[], []⟩
      (fun m hm => mem_sortByKey.mp hm) ⟨by simp [allRefs], by simp [allRefs]⟩
    have hpre : prepare_game_dataset pool min_atoms =
        (buildLoop filtered ⟨[], []⟩ (sortByKey (fun m => m.atom_count) filtered)).levels := rfl
    rw [hpre]
    exact hinv.1
  · intro s ms p hp
    exact buildLoop_used_mono _ ms s p hp

/-- Witness for C1 at a concrete working set with distinct paths and names. -/
theorem prepare_game_dataset_no_reuse_witness :
    (poolW.map fun m => m.file_path).Nodup ∧
    (allRefs (prepare_game_dataset poolW 5)).Nodup := by
  have h1 : (poolW.map fun m => m.file_path).Nodup := by decide
  have h2 : ∀ m1 ∈ poolW, ∀ m2 ∈ poolW, m1.file_name = m2.file_name →
      m1.file_path = m2.file_path := by decide
  exact ⟨h1, (prepare_game_dataset_no_reuse poolW 5 h1 h2).1⟩

/-- C5: when the Similarity Matcher returns fewer than two molecules for a
candidate target, that iteration leaves the builder state exactly as it was
(nothing marked used, no level appended) and the pass moves on to the rest
of the list, never revisiting the skipped target. -/
theorem buildLoop_skip_frame (pool : List Molecule) (s : BuildState) (t : Molecule)
    (rest : List Molecule)
    (h : (find_similar_molecules t pool SIMILARITY_THRESHOLD s.used).length < 2) :
    buildLoop pool s (t :: rest) = buildLoop pool s rest := by
  simp only [buildLoop]
  by_cases h1 : t.file_path ∈ s.used
  · rw [if_pos h1]
  · rw [if_neg h1, if_pos h]

/-- Witness for C5: a pool with no eligible partner for the target, so the
matcher returns fewer than two molecules and the step is a no-op. -/
theorem buildLoop_skip_frame_witness :
    (find_similar_molecules tW [tW] SIMILARITY_THRESHOLD ([] : List String)).length < 2 ∧
    buildLoop [tW] ⟨[], []⟩ [tW] = buildLoop [tW] ⟨[], []⟩ [] := by
  have h : (find_similar_molecules tW [tW] SIMILARITY_THRESHOLD ([] : List String)).length < 2 := by
    rw [find_similar_length]
    have : eligibleOf tW [tW] ([] : List String) = [] := by
      simp [eligibleOf]
    rw [this]
    simp
  exact ⟨h, buildLoop_skip_frame [tW] ⟨[], []⟩ tW [] h⟩

/-! Corpus loader (C6), determinism (C9) and copy round-trip (C8). -/

/-- C6: every descriptor admitted by the Corpus Loader meets the floor; a
record whose atom-count token cannot be extracted parses with atom_count 0,
and with a positive floor such a record contributes nothing to the working
set. -/
theorem collect_molecule_data_floor (records : List (String × RawMol2)) (min_atoms : Nat) :
    (∀ m ∈ collect_molecule_data records min_atoms, min_atoms ≤ m.atom_count) ∧
    (∀ (fp : String) (raw : RawMol2), raw.readable = true → raw.atomCountTok = none →
      (parse_mol2_file fp raw).map (fun m => m.atom_count) = some 0) ∧
    (∀ (fp : String) (raw : RawMol2) (rest : List (String × RawMol2)), 1 ≤ min_atoms →
      raw.atomCountTok = none →
      collect_molecule_data ((fp, raw) :: rest) min_atoms =
        collect_molecule_data rest min_atoms) := by
  refine ⟨?_, ?_, ?_⟩
  · intro m hm
    unfold collect_molecule_data at hm
    rcases List.mem_filterMap.mp hm with ⟨⟨fp, raw⟩, _, hsome⟩
    dsimp only at hsome
    split at hsome
    · split at hsome
      · injection hsome with h
        subst h
        assumption
      · cases hsome
    · cases hsome
  · intro fp raw hread htok
    unfold parse_mol2_file
    rw [if_pos hread]
    simp [htok]
  · intro fp raw rest hfloor htok
    unfold collect_molecule_data
    rw [List.filterMap_cons]
    rcases hr : raw.readable with _ | _
    · simp [parse_mol2_file, hr]
    · have hz : ¬ min_atoms ≤ (0 : Nat) := by omega
      simp [parse_mol2_file, hr, htok, hz]

/-- Witness for C6: a readable record with no atom-count token parses to a
zero-count descriptor and is dropped by the default floor of 5. -/
theorem collect_molecule_data_floor_witness :
    rawW.atomCountTok = none ∧
    (parse_mol2_file "db/x.mol2" rawW).map (fun m => m.atom_count) = some 0 ∧
    collect_molecule_data [("db/x.mol2", rawW)] 5 = collect_molecule_data [] 5 := by
  have htok : rawW.atomCountTok = none := rfl
  have hread : rawW.readable = true := rfl
  exact ⟨htok, (collect_molecule_data_floor [] 5).2.1 "db/x.mol2" rawW hread htok,
    (collect_molecule_data_floor [] 5).2.2 "db/x.mol2" rawW [] (by norm_num) htok⟩

/-- C9: the selection and pairing pipeline is deterministic: its outputs do
not depend on the ambient random-module state, and two runs with identical
inputs produce identical outputs for the Representative Selector, the
Similarity Matcher and the Level Builder. -/
theorem run_pipeline_deterministic (seed1 seed2 : Nat) (molecules : List Molecule)
    (num_to_select min_atoms : Nat) (t : Molecule) (thr : ℚ) (excl : List String) :
    run_pipeline seed1 molecules num_to_select min_atoms =
      run_pipeline seed2 molecules num_to_select min_atoms ∧
    select_representative_molecules molecules num_to_select min_atoms =
      select_representative_molecules molecules num_to_select min_atoms ∧
    find_similar_molecules t molecules thr excl = find_similar_molecules t molecules thr excl ∧
    prepare_game_dataset molecules min_atoms = prepare_game_dataset molecules min_atoms :=
  ⟨rfl, rfl, rfl, rfl⟩

lemma resolveRef_some {all : List Molecule} {f : String} {m : Molecule}
    (h : resolveRef all f = some m) : m ∈ all ∧ basename m.file_path = f := by
  unfold resolveRef at h
  refine ⟨List.mem_of_find?_eq_some h, ?_⟩
  have := List.find?_some h
  simpa using this

lemma resolveRef_of_mem {all : List Molecule} {m : Molecule}
    (hb : ∀ x ∈ all, x.file_name = basename x.file_path)
    (hnd : (all.map fun x => basename x.file_path).Nodup)
    (hm : m ∈ all) :
    resolveRef all m.file_name = some m := by
  induction all with
  | nil => cases hm
  | cons a rest ih =>
    have hnd0 : (basename a.file_path :: rest.map fun x => basename x.file_path).Nodup := by
      simpa using hnd
    have hnd' := List.nodup_cons.mp hnd0
    rcases List.mem_cons.mp hm with rfl | hm'
    · unfold resolveRef
      rw [List.find?_cons]
      have : (basename m.file_path == m.file_name) = true := by
        simp [(hb m (by simp)).symm]
      rw [this]
    · unfold resolveRef
      rw [List.find?_cons]
      by_cases hc : basename a.file_path = m.file_name
      · exfalso
        have hmb : basename m.file_path = m.file_name := (hb m (by simp [hm'])).symm
        have : basename a.file_path ∈ rest.map fun x => basename x.file_path :=
          List.mem_map.mpr ⟨m, hm', by rw [hmb, hc]⟩
        exact hnd'.1 this
      · have : (basename a.file_path == m.file_name) = false := by
          simpa using hc
        rw [this]
        exact ih (fun x hx => hb x (by simp [hx])) hnd'.2 hm'

lemma mem_collectCopyPaths {all : List Molecule} {levels : List GameLevel} {p : String} :
    p ∈ collectCopyPaths all levels ↔
      ∃ l ∈ levels, ∃ f ∈ levelRefFiles l, ∃ m, resolveRef all f = some m ∧ m.file_path = p := by
  simp [collectCopyPaths, List.mem_flatMap, List.mem_filterMap]

/-- C8: the molecules selected for copying are exactly the working-set
molecules whose file name is referenced by some level of the produced
manifest (references are resolved by matching a level's file name back
against basenames of working-set paths), and every selected molecule is
copied into the target store under its original base name. -/
theorem copy_roundtrip (pool : List Molecule) (min_atoms : Nat) (target_path : String)
    (hb : ∀ x ∈ pool, x.file_name = basename x.file_path)
    (hnd : (pool.map fun x => basename x.file_path).Nodup) :
    (∀ m, m ∈ molecules_to_copy pool (prepare_game_dataset pool min_atoms) ↔
      (m ∈ pool ∧ ∃ l ∈ prepare_game_dataset pool min_atoms, m.file_name ∈ levelRefFiles l)) ∧
    (∀ m ∈ molecules_to_copy pool (prepare_game_dataset pool min_atoms),
      (m.file_path, target_path ++ "/" ++ m.file_name) ∈
        copy_selected_molecules (molecules_to_copy pool (prepare_game_dataset pool min_atoms))
          target_path) := by
  constructor
  · intro m
    unfold molecules_to_copy
    rw [List.mem_filter]
    simp only [decide_eq_true_eq]
    constructor
    · rintro ⟨hmem, hpath⟩
      refine ⟨hmem, ?_⟩
      rcases mem_collectCopyPaths.mp hpath with ⟨l, hl, f, hf, m', hres, hp⟩
      rcases resolveRef_some hres with ⟨hm', hbn⟩
      have hfm : m.file_name = f := by
        rw [hb m hmem, ← hp, hbn]
      exact ⟨l, hl, hfm ▸ hf⟩
    · rintro ⟨hmem, l, hl, hf⟩
      refine ⟨hmem, mem_collectCopyPaths.mpr ⟨l, hl, m.file_name, hf, m, ?_, rfl⟩⟩
      exact resolveRef_of_mem hb hnd hmem
  · intro m hm
    have hmem : m ∈ pool := List.mem_of_mem_filter hm
    unfold copy_selected_molecules
    refine List.mem_map.mpr ⟨m, hm, ?_⟩
    rw [← hb m hmem]

/-- Witness for C8 at a concrete working set whose file names are the
basenames of their paths. -/
theorem copy_roundtrip_witness :
    (∀ x ∈ poolW, x.file_name = basename x.file_path) ∧
    (tW ∈ molecules_to_copy poolW (prepare_game_dataset poolW 5) ↔
      (tW ∈ poolW ∧ ∃ l ∈ prepare_game_dataset poolW 5, tW.file_name ∈ levelRefFiles l)) := by
  have hb : ∀ x ∈ poolW, x.file_name = basename x.file_path := by decide
  have hnd : (poolW.map fun x => basename x.file_path).Nodup := by decide
  exact ⟨hb, (copy_roundtrip poolW 5 "data/DB" hb hnd).1 tW⟩

/-! Representative-selector lemmas (C7). -/

lemma binsConcat_nil (bins : Nat → List Molecule) : binsConcat [] bins = [] := rfl

lemma binsConcat_cons (k : Nat) (keys : List Nat) (bins : Nat → List Molecule) :
    binsConcat (k :: keys) bins = ((bins k).map fun m => m.file_path) ++ binsConcat keys bins :=
  rfl

lemma binsConcat_append (xs ys : List Nat) (bins : Nat → List Molecule) :
    binsConcat (xs ++ ys) bins = binsConcat xs bins ++ binsConcat ys bins := by
  induction xs with
  | nil => simp [binsConcat_nil]
  | cons x xs ih => simp [binsConcat_cons, ih]

lemma binsConcat_congr {keys : List Nat} {f g : Nat → List Molecule}
    (h : ∀ k ∈ keys, f k = g k) : binsConcat keys f = binsConcat keys g := by
  induction keys with
  | nil => rfl
  | cons k ks ih =>
    rw [binsConcat_cons, binsConcat_cons, h k (by simp), ih fun x hx => h x (by simp [hx])]

lemma binsConcat_const_nil (keys : List Nat) : binsConcat keys (fun _ => []) = [] := by
  induction keys with
  | nil => rfl
  | cons k ks ih => rw [binsConcat_cons, ih]; rfl

lemma binTotal_cons (k : Nat) (keys : List Nat) (bins : Nat → List Molecule) :
    binTotal (k :: keys) bins = (bins k).length + binTotal keys bins := by
  simp [binTotal]

lemma length_binsConcat (keys : List Nat) (bins : Nat → List Molecule) :
    (binsConcat keys bins).length = binTotal keys bins := by
  induction keys with
  | nil => rfl
  | cons k ks ih =>
    rw [binsConcat_cons, List.length_append, List.length_map, ih, binTotal_cons]

lemma binTotal_append (xs ys : List Nat) (bins : Nat → List Molecule) :
    binTotal (xs ++ ys) bins = binTotal xs bins + binTotal ys bins := by
  simp [binTotal]

lemma binTotal_congr {keys : List Nat} {f g : Nat → List Molecule}
    (h : ∀ k ∈ keys, f k = g k) : binTotal keys f = binTotal keys g := by
  induction keys with
  | nil => rfl
  | cons k ks ih =>
    rw [binTotal_cons, binTotal_cons, h k (by simp), ih fun x hx => h x (by simp [hx])]

lemma mem_binsConcat_of {keys : List Nat} {bins : Nat → List Molecule} {ac : Nat}
    (hk : ac ∈ keys) {m : Molecule} (hm : m ∈ bins ac) :
    m.file_path ∈ binsConcat keys bins := by
  induction keys with
  | nil => cases hk
  | cons k ks ih =>
    rw [binsConcat_cons, List.mem_append]
    rcases List.mem_cons.mp hk with rfl | hk'
    · exact Or.inl (List.mem_map.mpr ⟨m, hm, rfl⟩)
    · exact Or.inr (ih hk')

lemma split_of_mem_nodup {keys : List Nat} {ac : Nat} (hk : ac ∈ keys) (hnd : keys.Nodup) :
    ∃ L1 L2, keys = L1 ++ ac :: L2 ∧ ac ∉ L1 ∧ ac ∉ L2 := by
  rcases List.append_of_mem hk with ⟨L1, L2, rfl⟩
  have h := List.nodup_append.mp hnd
  have hacL2 : ac ∉ L2 := (List.nodup_cons.mp h.2.1).1
  have hacL1 : ac ∉ L1 := fun hmem => h.2.2 hmem (by simp)
  exact ⟨L1, L2, rfl, hacL1, hacL2⟩

lemma binsConcat_update_cons {keys : List Nat} (hnd : keys.Nodup) {ac : Nat} (hk : ac ∈ keys)
    {bins binsC : Nat → List Molecule} {m : Molecule}
    (hac : binsC ac = m :: bins ac) (hother : ∀ k, k ≠ ac → binsC k = bins k) :
    (binsConcat keys binsC).Perm (m.file_path :: binsConcat keys bins) := by
  rcases split_of_mem_nodup hk hnd with ⟨L1, L2, rfl, hacL1, hacL2⟩
  have hC1 : binsConcat L1 binsC = binsConcat L1 bins :=
    binsConcat_congr fun k hkL1 => hother k (fun h => hacL1 (h ▸ hkL1))
  have hC2 : binsConcat L2 binsC = binsConcat L2 bins :=
    binsConcat_congr fun k hkL2 => hother k (fun h => hacL2 (h ▸ hkL2))
  rw [binsConcat_append, binsConcat_append, binsConcat_cons, binsConcat_cons, hC1, hC2, hac,
    List.map_cons]
  simp only [List.cons_append, List.append_assoc]
  exact List.perm_middle

lemma binTotal_update_cons {keys : List Nat} (hnd : keys.Nodup) {ac : Nat} (hk : ac ∈ keys)
    {bins binsC : Nat → List Molecule} {m : Molecule}
    (hac : binsC ac = m :: bins ac) (hother : ∀ k, k ≠ ac → binsC k = bins k) :
    binTotal keys binsC = binTotal keys bins + 1 := by
  rcases split_of_mem_nodup hk hnd with ⟨L1, L2, rfl, hacL1, hacL2⟩
  have hC1 : binTotal L1 binsC = binTotal L1 bins :=
    binTotal_congr fun k hkL1 => hother k (fun h => hacL1 (h ▸ hkL1))
  have hC2 : binTotal L2 binsC = binTotal L2 bins :=
    binTotal_congr fun k hkL2 => hother k (fun h => hacL2 (h ▸ hkL2))
  rw [binTotal_append, binTotal_append, binTotal_cons, binTotal_cons, hC1, hC2, hac,
    List.length_cons]
  omega

lemma binsConcat_filter_perm (keys : List Nat) (hnd : keys.Nodup) :
    ∀ (l : List Molecule), (∀ m ∈ l, m.atom_count ∈ keys) →
      (binsConcat keys fun k => l.filter fun m => m.atom_count == k).Perm
        (l.map fun m => m.file_path) := by
  intro l
  induction l with
  | nil =>
    intro _
    have h0 : (fun k => List.filter (fun m => m.atom_count == k) []) =
        (fun _ : Nat => ([] : List Molecule)) := rfl
    rw [h0, binsConcat_const_nil]
    simp
  | cons m rest ih =>
    intro hmem
    have hmk : m.atom_count ∈ keys := hmem m (by simp)
    have hperm := @binsConcat_update_cons keys hnd m.atom_count hmk
      (fun k => rest.filter fun x => x.atom_count == k)
      (fun k => (m :: rest).filter fun x => x.atom_count == k)
      m ?hac ?hother
    · refine hperm.trans ?_
      rw [List.map_cons]
      exact (ih fun x hx => hmem x (by simp [hx])).cons _
    case hac => simp [List.filter_cons]
    case hother =>
      intro k hkne
      have : (m.atom_count == k) = false := by
        simp
        exact fun h => hkne h.symm
      simp [List.filter_cons, this]

lemma sweepSnap_spec (K : Nat) (allKeys : List Nat) (hK : allKeys.Nodup) :
    ∀ (snap : List Nat) (s : SelState), SelInv allKeys s → snap.Nodup →
      (∀ k ∈ snap, k ∈ s.live) → s.selected.length < K →
      SelInv allKeys (sweepSnap K snap s).1 ∧
      binTotal allKeys (sweepSnap K snap s).1.bins + (sweepSnap K snap s).1.selected.length =
        binTotal allKeys s.bins + s.selected.length ∧
      ((sweepSnap K snap s).2 = true → (sweepSnap K snap s).1.selected.length = K) ∧
      ((sweepSnap K snap s).2 = false → (sweepSnap K snap s).1.selected.length < K) ∧
      (sweepSnap K snap s).1.live.length + binTotal allKeys (sweepSnap K snap s).1.bins ≤
        s.live.length + binTotal allKeys s.bins ∧
      (snap ≠ [] →
        (sweepSnap K snap s).1.live.length + binTotal allKeys (sweepSnap K snap s).1.bins <
          s.live.length + binTotal allKeys s.bins) := by
  intro snap
  induction snap with
  | nil =>
    intro s hinv _ _ hsel
    refine ⟨hinv, rfl, ?_, ?_, le_refl _, ?_⟩
    · intro h; simp [sweepSnap] at h
    · intro _; exact hsel
    · intro h; exact absurd rfl h
  | cons ac rest ih =>
    intro s hinv hsnodup hsnap hsel
    have hacLive : ac ∈ s.live := hsnap ac (by simp)
    have hrestNodup : rest.Nodup := (List.nodup_cons.mp hsnodup).2
    have hacNotRest : ac ∉ rest := (List.nodup_cons.mp hsnodup).1
    rcases hbin : s.bins ac with _ | ⟨m, ms⟩
    · -- the bin at ac is empty: ac is pruned from the live list
      have heq : sweepSnap K (ac :: rest) s =
          sweepSnap K rest { s with live := s.live.erase ac } := by
        simp only [sweepSnap, hbin]
      set s1 : SelState := { s with live := s.live.erase ac } with hs1
      have hinv1 : SelInv allKeys s1 := by
        refine ⟨hinv.nodup, hinv.usedIff, ?_, ?_, ?_, hinv.offKeysEmpty⟩
        · intro k hk; exact hinv.liveSub k (List.mem_of_mem_erase hk)
        · exact hinv.liveNodup.erase ac
        · intro k hkall hk
          by_cases hkac : k = ac
          · exact hkac ▸ hbin
          · refine hinv.deadEmpty k hkall fun hkl => hk ?_
            exact (List.mem_erase_of_ne hkac).mpr hkl
      have hsub1 : ∀ k ∈ rest, k ∈ s1.live := by
        intro k hk
        have hkl : k ∈ s.live := hsnap k (by simp [hk])
        have hkne : k ≠ ac := fun h => hacNotRest (h ▸ hk)
        exact (List.mem_erase_of_ne hkne).mpr hkl
      have hlen1 : s1.live.length + 1 = s.live.length := by
        have herase := List.length_erase ac s.live
        rw [if_pos hacLive] at herase
        have hpos : 0 < s.live.length := List.length_pos.mpr (List.ne_nil_of_mem hacLive)
        show (s.live.erase ac).length + 1 = s.live.length
        omega
      rcases ih s1 hinv1 hrestNodup hsub1 hsel with ⟨h1, h2, h3, h4, h5, _⟩
      rw [heq]
      have hbins1 : binTotal allKeys s1.bins = binTotal allKeys s.bins := rfl
      refine ⟨h1, h2, h3, h4, by omega, fun _ => by omega⟩
    · -- the bin at ac holds m :: ms: m is popped and selected
      have hacKeys : ac ∈ allKeys := by
        by_contra hk
        rw [hinv.offKeysEmpty ac hk] at hbin
        cases hbin
      set bins' : Nat → List Molecule := fun k => if k = ac then ms else s.bins k with hbins'
      have hother : ∀ k, k ≠ ac → s.bins k = bins' k := by
        intro k hk; simp [hbins', hk]
      have hac' : s.bins ac = m :: bins' ac := by simp [hbins', hbin]
      have hperm : (binsConcat allKeys s.bins).Perm
          (m.file_path :: binsConcat allKeys bins') :=
        binsConcat_update_cons hK hacKeys hac' fun k hk => hother k hk
      have htot : binTotal allKeys s.bins = binTotal allKeys bins' + 1 :=
        binTotal_update_cons hK hacKeys hac' fun k hk => hother k hk
      have hmnotused : m.file_path ∉ s.used := by
        intro hmem
        have hsel' : m.file_path ∈ s.selected.map fun x => x.file_path :=
          (hinv.usedIff _).mp hmem
        have hbinmem : m.file_path ∈ binsConcat allKeys s.bins :=
          mem_binsConcat_of hacKeys (by rw [hbin]; simp)
        have hdisj := List.nodup_append.mp hinv.nodup
        exact hdisj.2.2 hbinmem hsel'
      set s' : SelState := ⟨s.live, bins', s.selected ++ [m], m.file_path :: s.used⟩ with hs'
      have heq : sweepSnap K (ac :: rest) s =
          if K ≤ s'.selected.length then (s', true) else sweepSnap K rest s' := by
        simp only [sweepSnap, hbin, if_neg hmnotused, hs', hbins']
      have hselLen : s'.selected.length = s.selected.length + 1 := by
        show (s.selected ++ [m]).length = s.selected.length + 1
        simp
      have hinv' : SelInv allKeys s' := by
        refine ⟨?_, ?_, hinv.liveSub, hinv.liveNodup, ?_, ?_⟩
        · have p1 : binsConcat allKeys s'.bins ++ (s'.selected.map fun x => x.file_path) =
              (binsConcat allKeys bins' ++ s.selected.map fun x => x.file_path) ++
                [m.file_path] := by
            show binsConcat allKeys bins' ++ ((s.selected ++ [m]).map fun x => x.file_path) = _
            simp
          have p2 : ((binsConcat allKeys bins' ++ s.selected.map fun x => x.file_path) ++
              [m.file_path]).Perm
              (m.file_path :: (binsConcat allKeys bins' ++
                s.selected.map fun x => x.file_path)) :=
            List.perm_append_singleton _ _
          have p4 : (m.file_path :: (binsConcat allKeys bins' ++
              s.selected.map fun x => x.file_path)).Perm
              (binsConcat allKeys s.bins ++ s.selected.map fun x => x.file_path) :=
            hperm.symm.append_right _
          rw [p1]
          exact ((p2.trans p4).symm).nodup hinv.nodup
        · intro p
          show p ∈ m.file_path :: s.used ↔ p ∈ (s.selected ++ [m]).map fun x => x.file_path
          rw [List.mem_cons, List.map_append, List.mem_append, hinv.usedIff p]
          simp only [List.map_cons, List.map_nil, List.mem_singleton]
          tauto
        · intro k hkall hkl
          have hkac : k ≠ ac := fun h => hkl (h ▸ hacLive)
          show bins' k = []
          rw [← hother k hkac]
          exact hinv.deadEmpty k hkall hkl
        · intro k hkall
          have hkac : k ≠ ac := fun h => hkall (h ▸ hacKeys)
          show bins' k = []
          rw [← hother k hkac]
          exact hinv.offKeysEmpty k hkall
      by_cases hbreak : K ≤ s'.selected.length
      · rw [heq, if_pos hbreak]
        refine ⟨hinv', ?_, ?_, ?_, ?_, ?_⟩
        · show binTotal allKeys bins' + s'.selected.length = _
          omega
        · intro _
          show s'.selected.length = K
          omega
        · intro h; simp at h
        · show s.live.length + binTotal allKeys bins' ≤ _
          omega
        · intro _
          show s.live.length + binTotal allKeys bins' < _
          omega
      · have hsel2 : s'.selected.length < K := Nat.lt_of_not_le hbreak
        have hsub' : ∀ k ∈ rest, k ∈ s'.live := fun k hk => hsnap k (by simp [hk])
        rcases ih s' hinv' hrestNodup hsub' hsel2 with ⟨h1, h2, h3, h4, h5, _⟩
        rw [heq, if_neg hbreak]
        have hbt : binTotal allKeys s.bins = binTotal allKeys s'.bins + 1 := htot
        have hlv : s'.live.length = s.live.length := rfl
        refine ⟨h1, ?_, h3, h4, ?_, fun _ => ?_⟩
        · omega
        · omega
        · omega

lemma binTotal_eq_zero {keys : List Nat} {bins : Nat → List Molecule}
    (h : ∀ k ∈ keys, bins k = []) : binTotal keys bins = 0 := by
  refine List.sum_eq_zero fun x hx => ?_
  rcases List.mem_map.mp hx with ⟨k, hk, rfl⟩
  rw [h k hk]
  rfl

lemma sweepOuter_spec (K : Nat) (allKeys : List Nat) (hK : allKeys.Nodup) :
    ∀ (fuel : Nat) (s : SelState), SelInv allKeys s → s.selected.length ≤ K →
      s.live.length + binTotal allKeys s.bins < fuel →
      (sweepOuter K allKeys fuel s).length =
        min K (s.selected.length + binTotal allKeys s.bins) ∧
      ((sweepOuter K allKeys fuel s).map fun m => m.file_path).Nodup := by
  intro fuel
  induction fuel with
  | zero => intro s _ _ hf; omega
  | succ fuel ih =>
    intro s hinv hsel hf
    have hselNodup : (s.selected.map fun m => m.file_path).Nodup :=
      (List.nodup_append.mp hinv.nodup).2.1
    by_cases hcond : s.selected.length < K ∧ s.live ≠ []
    · have heq : sweepOuter K allKeys (fuel + 1) s =
          (if (sweepSnap K s.live s).2 then (sweepSnap K s.live s).1.selected
           else if allKeys.all fun k => decide ((sweepSnap K s.live s).1.bins k = []) then
             (sweepSnap K s.live s).1.selected
           else sweepOuter K allKeys fuel (sweepSnap K s.live s).1) := by
        simp only [sweepOuter, if_pos hcond]
      obtain ⟨hlt, hne⟩ := hcond
      rcases sweepSnap_spec K allKeys hK s.live s hinv hinv.liveNodup (fun k hk => hk) hlt
        with ⟨h1, h2, h3, h4, h5, h6⟩
      have hstrict := h6 hne
      have hrNodup : ((sweepSnap K s.live s).1.selected.map fun m => m.file_path).Nodup :=
        (List.nodup_append.mp h1.nodup).2.1
      rw [heq]
      by_cases hbroke : (sweepSnap K s.live s).2 = true
      · rw [if_pos hbroke]
        have hK' := h3 hbroke
        exact ⟨by omega, hrNodup⟩
      · have hfalse : (sweepSnap K s.live s).2 = false := by
          revert hbroke
          cases (sweepSnap K s.live s).2 <;> simp
        have hlt' := h4 hfalse
        rw [if_neg hbroke]
        by_cases hall :
            (allKeys.all fun k => decide ((sweepSnap K s.live s).1.bins k = [])) = true
        · rw [if_pos hall]
          have hz : binTotal allKeys (sweepSnap K s.live s).1.bins = 0 := by
            refine binTotal_eq_zero fun k hk => ?_
            have := List.all_eq_true.mp hall k hk
            simpa using this
          exact ⟨by omega, hrNodup⟩
        · rw [if_neg hall]
          have hres := ih (sweepSnap K s.live s).1 h1 (by omega) (by omega)
          refine ⟨?_, hres.2⟩
          have := hres.1
          omega
    · have heq : sweepOuter K allKeys (fuel + 1) s = s.selected := by
        simp only [sweepOuter, if_neg hcond]
      rw [heq]
      by_cases hlt2 : s.selected.length < K
      · have hlive : s.live = [] := by
          by_contra hne
          exact hcond ⟨hlt2, hne⟩
        have hz : binTotal allKeys s.bins = 0 := by
          refine binTotal_eq_zero fun k hk => ?_
          refine hinv.deadEmpty k hk ?_
          rw [hlive]
          exact List.not_mem_nil k
        exact ⟨by omega, hselNodup⟩
      · have hKeq : s.selected.length = K := by omega
        exact ⟨by omega, hselNodup⟩

/-- C7: the Representative Selector returns exactly the minimum of the
requested count and the number of floor-eligible molecules, all with
pairwise distinct file paths, drawn by the FIFO round-robin sweep over the
atom-count buckets. -/
theorem select_representative_count (molecules : List Molecule)
    (num_to_select min_atoms : Nat)
    (hpaths : (molecules.map fun m => m.file_path).Nodup) :
    (select_representative_molecules molecules num_to_select min_atoms).length =
      min num_to_select
        ((molecules.filter fun m => decide (min_atoms ≤ m.atom_count)).length) ∧
    ((select_representative_molecules molecules num_to_select min_atoms).map
      fun m => m.file_path).Nodup := by
  by_cases hempty : molecules.filter (fun m => decide (min_atoms ≤ m.atom_count)) = []
  · have hres : select_representative_molecules molecules num_to_select min_atoms = [] := by
      unfold select_representative_molecules
      rw [if_pos hempty]
    rw [hres, hempty]
    simp
  · have hres : select_representative_molecules molecules num_to_select min_atoms =
        selectCore (sortByKey (fun m => m.atom_count)
          (molecules.filter fun m => decide (min_atoms ≤ m.atom_count))) num_to_select := by
      unfold select_representative_molecules
      rw [if_neg hempty]
    set filtered := molecules.filter fun m => decide (min_atoms ≤ m.atom_count) with hfil
    set sorted := sortByKey (fun m => m.atom_count) filtered with hsorted
    set keys := sortByKey (fun k => k) ((sorted.map fun m => m.atom_count).dedup) with hkeys
    set bins0 : Nat → List Molecule :=
      fun k => sorted.filter fun m => m.atom_count == k with hbins0
    have hcore : selectCore sorted num_to_select =
        sweepOuter num_to_select keys (sorted.length + keys.length + 1)
          ⟨keys, bins0, [], []⟩ := rfl
    have hkeysNodup : keys.Nodup :=
      ((sortByKey_perm (fun k => k) _).symm).nodup (List.nodup_dedup _)
    have hmemkeys : ∀ m ∈ sorted, m.atom_count ∈ keys := by
      intro m hm
      rw [hkeys, mem_sortByKey, List.mem_dedup]
      exact List.mem_map.mpr ⟨m, hm, rfl⟩
    have hsortedPaths : (sorted.map fun m => m.file_path).Nodup := by
      have hfilt : (filtered.map fun m => m.file_path).Nodup :=
        ((List.filter_sublist molecules).map _).nodup hpaths
      exact (((sortByKey_perm (fun m => m.atom_count) filtered).map _).symm).nodup hfilt
    have hinitperm : (binsConcat keys bins0).Perm (sorted.map fun m => m.file_path) :=
      binsConcat_filter_perm keys hkeysNodup sorted hmemkeys
    have hinitlen : binTotal keys bins0 = sorted.length := by
      have := length_binsConcat keys bins0
      rw [hinitperm.length_eq, List.length_map] at this
      omega
    have hinv0 : SelInv keys (⟨keys, bins0, [], []⟩ : SelState) := by
      refine ⟨?_, ?_, fun k hk => hk, hkeysNodup, ?_, ?_⟩
      · show (binsConcat keys bins0 ++ ([] : List Molecule).map fun m => m.file_path).Nodup
        rw [List.map_nil, List.append_nil]
        exact hinitperm.symm.nodup hsortedPaths
      · intro p
        show p ∈ ([] : List String) ↔ p ∈ ([] : List Molecule).map fun m => m.file_path
        simp
      · intro k hk hnk
        exact absurd hk hnk
      · intro k hk
        refine List.filter_eq_nil_iff.mpr fun m hm => ?_
        have := hmemkeys m hm
        simp only [beq_iff_eq, decide_eq_true_eq]
        intro hkm
        exact hk (hkm ▸ this)
    have hmain := sweepOuter_spec num_to_select keys hkeysNodup
      (sorted.length + keys.length + 1) ⟨keys, bins0, [], []⟩ hinv0 (by simp) (by
        show keys.length + binTotal keys bins0 < sorted.length + keys.length + 1
        omega)
    rw [hres, hcore]
    have hlensorted : sorted.length = filtered.length := length_sortByKey _ _
    refine ⟨?_, hmain.2⟩
    have hval := hmain.1
    have hproj1 : ((⟨keys, bins0, [], []⟩ : SelState)).selected.length = 0 := rfl
    have hproj2 : binTotal keys ((⟨keys, bins0, [], []⟩ : SelState)).bins =
        binTotal keys bins0 := rfl
    show (sweepOuter num_to_select keys (sorted.length + keys.length + 1)
      ⟨keys, bins0, [], []⟩).length = min num_to_select filtered.length
    omega

/-- Witness for C7 at a concrete working set with distinct file paths:
requesting two representatives from four eligible molecules. -/
theorem select_representative_count_witness :
    (poolW.map fun m => m.file_path).Nodup ∧
    (select_representative_molecules poolW 2 5).length =
      min 2 ((poolW.filter fun m => decide (5 ≤ m.atom_count)).length) := by
  have h : (poolW.map fun m => m.file_path).Nodup := by decide
  exact ⟨h, (select_representative_count poolW 2 5 h).1⟩

/-! Store-model lemmas (C10): the three core operations never write the
caller's list cell. -/

lemma getRef_alloc_self (st : Store) (v : List Molecule) :
    getRef (allocRef st v).1 (allocRef st v).2 = v := by
  show (st ++ [v]).getD st.length [] = v
  rw [List.getD_eq_getElem?_getD, List.getElem?_concat_length]
  rfl

lemma getRef_alloc_lt {st : Store} {r : Ref} (h : r < st.length) (v : List Molecule) :
    getRef (allocRef st v).1 r = getRef st r := by
  show (st ++ [v]).getD r [] = st.getD r []
  exact List.getD_append _ _ _ _ h

lemma getRef_set_ne {st : Store} {r r' : Ref} (h : r' ≠ r) (v : List Molecule) :
    getRef (setRef st r' v) r = getRef st r := by
  show (st.set r' v).getD r [] = st.getD r []
  rw [List.getD_eq_getElem?_getD, List.getD_eq_getElem?_getD, List.getElem?_set_ne h]

lemma getRef_set_self {st : Store} {r : Ref} (h : r < st.length) (v : List Molecule) :
    getRef (setRef st r v) r = v := by
  show (st.set r v).getD r [] = v
  rw [List.getD_eq_getElem?_getD, List.getElem?_set_self h]
  rfl

lemma length_setRef (st : Store) (r : Ref) (v : List Molecule) :
    (setRef st r v).length = st.length := List.length_set st r v
lemma escalateHeap_spec (t : Molecule) (pool : List Molecule) (excl : List String) (md : ℚ) :
    ∀ (muls : List ℚ) (st : Store) (r : Ref),
      st.length ≤ (escalateHeap t pool excl md muls st r).1.length ∧
      (∀ q, q < st.length → getRef (escalateHeap t pool excl md muls st r).1 q = getRef st q) ∧
      ((escalateHeap t pool excl md muls st r).2 = r ∨
        st.length ≤ (escalateHeap t pool excl md muls st r).2) ∧
      (r < st.length →
        (escalateHeap t pool excl md muls st r).2 <
          (escalateHeap t pool excl md muls st r).1.length) ∧
      getRef (escalateHeap t pool excl md muls st r).1 (escalateHeap t pool excl md muls st r).2 =
        escalateLoop t pool excl md muls (getRef st r) := by
  intro muls
  induction muls with
  | nil => intro st r; exact ⟨le_refl _, fun q _ => rfl, Or.inl rfl, fun hr => hr, rfl⟩
  | cons mult rest ih =>
    intro st r
    by_cases h : (getRef st r).length < 2
    · have heq : escalateHeap t pool excl md (mult :: rest) st r =
          escalateHeap t pool excl md rest (st ++ [simFilter t pool excl (md * mult)])
            st.length := by
        simp only [escalateHeap, if_pos h]
        rfl
      rcases ih (st ++ [simFilter t pool excl (md * mult)]) st.length with ⟨l1, l2, l3, l4, l5⟩
      have hlen : (st ++ [simFilter t pool excl (md * mult)]).length = st.length + 1 := by
        rw [List.length_append]
        rfl
      have hlt : st.length < (st ++ [simFilter t pool excl (md * mult)]).length := by
        rw [hlen]
        exact Nat.lt_succ_self _
      rw [heq]
      refine ⟨le_trans (Nat.le_of_lt hlt) l1, ?_, ?_, fun _ => l4 hlt, ?_⟩
      · intro q hq
        rw [l2 q (lt_trans hq hlt)]
        exact getRef_alloc_lt hq _
      · right
        rcases l3 with h3 | h3
        · exact h3.ge
        · exact le_trans (Nat.le_of_lt hlt) h3
      · rw [l5]
        have hget : getRef (st ++ [simFilter t pool excl (md * mult)]) st.length =
            simFilter t pool excl (md * mult) := getRef_alloc_self st _
        rw [hget]
        simp [escalateLoop, if_pos h]
    · have heq : escalateHeap t pool excl md (mult :: rest) st r = (st, r) := by
        simp only [escalateHeap, if_neg h]
      rw [heq]
      exact ⟨le_refl _, fun q _ => rfl, Or.inl rfl, fun hr => hr, by simp [escalateLoop, h]⟩

lemma select_representative_heap_spec (st : Store) (r : Ref) (K min_atoms : Nat)
    (h : r < st.length) :
    getRef (select_representative_heap st r K min_atoms).1 r = getRef st r ∧
    (select_representative_heap st r K min_atoms).2 =
      select_representative_molecules (getRef st r) K min_atoms := by
  unfold select_representative_heap select_representative_molecules
  simp only [getRef_alloc_self]
  set fl := (getRef st r).filter fun m => decide (min_atoms ≤ m.atom_count) with hfl
  have hne : (allocRef st fl).2 ≠ r := ne_of_gt h
  have hvalid : (allocRef st fl).2 < (allocRef st fl).1.length := by
    show st.length < (st ++ [fl]).length
    rw [List.length_append]
    exact Nat.lt_succ_self _
  by_cases hemp : fl = []
  · rw [if_pos hemp, if_pos hemp]
    exact ⟨getRef_alloc_lt h fl, rfl⟩
  · rw [if_neg hemp, if_neg hemp]
    constructor
    · rw [getRef_set_ne hne, getRef_alloc_lt h]
    · rw [getRef_set_self hvalid]

lemma prepare_game_dataset_heap_spec (st : Store) (r : Ref) (min_atoms : Nat)
    (h : r < st.length) :
    getRef (prepare_game_dataset_heap st r min_atoms).1 r = getRef st r ∧
    (prepare_game_dataset_heap st r min_atoms).2 =
      prepare_game_dataset (getRef st r) min_atoms := by
  unfold prepare_game_dataset_heap prepare_game_dataset
  simp only [getRef_alloc_self]
  set fl := (getRef st r).filter fun m => decide (min_atoms ≤ m.atom_count) with hfl
  have hvalid : (allocRef st fl).2 < (allocRef st fl).1.length := by
    show st.length < (st ++ [fl]).length
    rw [List.length_append]
    exact Nat.lt_succ_self _
  have hr1 : r < (allocRef st fl).1.length := lt_trans h hvalid
  constructor
  · rw [getRef_alloc_lt hr1, getRef_alloc_lt h]
  · rw [getRef_alloc_lt hvalid, getRef_alloc_self]

lemma find_similar_heap_spec (st : Store) (poolRef : Ref) (t : Molecule) (thr : ℚ)
    (excl : List String) (h : poolRef < st.length) :
    getRef (find_similar_heap st poolRef t thr excl).1 poolRef = getRef st poolRef ∧
    (find_similar_heap st poolRef t thr excl).2 =
      find_similar_molecules t (getRef st poolRef) thr excl := by
  unfold find_similar_heap find_similar_molecules
  simp only [getRef_alloc_self]
  set pool := getRef st poolRef with hpool
  set md : ℚ := (t.atom_count : ℚ) * thr with hmd
  set base := simFilter t pool excl md with hbase
  have hval1 : (allocRef st base).2 < (allocRef st base).1.length := by
    show st.length < (st ++ [base]).length
    rw [List.length_append]
    exact Nat.lt_succ_self _
  by_cases hc1 : base.length < 2
  · rw [if_pos hc1, if_pos hc1]
    rcases escalateHeap_spec t pool excl md ESCALATION_MULTIPLIERS (allocRef st base).1
      (allocRef st base).2 with ⟨e1, e2, e3, e4, e5⟩
    rw [getRef_alloc_self] at e5
    set e := escalateHeap t pool excl md ESCALATION_MULTIPLIERS (allocRef st base).1
      (allocRef st base).2 with he
    have hlen1 : (allocRef st base).1.length = st.length + 1 := by
      show (st ++ [base]).length = st.length + 1
      rw [List.length_append]
      rfl
    have helow : st.length ≤ e.2 := by
      rcases e3 with h3 | h3
      · exact h3.ge
      · omega
    have heval : e.2 < e.1.length := e4 hval1
    have heframe : ∀ q, q < st.length → getRef e.1 q = getRef st q := by
      intro q hq
      rw [e2 q (by omega)]
      exact getRef_alloc_lt hq base
    have helen : st.length ≤ e.1.length := by omega
    rw [e5]
    set afterEsc := escalateLoop t pool excl md ESCALATION_MULTIPLIERS base with haft
    by_cases hc2 : afterEsc.length < 2
    · rw [if_pos hc2, if_pos hc2]
      set elg := eligibleOf t pool excl with helg
      have hvalc : (allocRef e.1 elg).2 < (allocRef e.1 elg).1.length := by
        show e.1.length < (e.1 ++ [elg]).length
        rw [List.length_append]
        exact Nat.lt_succ_self _
      have hlenc : (allocRef e.1 elg).1.length = e.1.length + 1 := by
        show (e.1 ++ [elg]).length = e.1.length + 1
        rw [List.length_append]
        rfl
      set stc := setRef (allocRef e.1 elg).1 (allocRef e.1 elg).2
        (sortByKey (simKey t) elg) with hstc
      have hgetc2 : getRef stc (allocRef e.1 elg).2 = sortByKey (simKey t) elg :=
        getRef_set_self hvalc _
      rw [hgetc2]
      set tk := (sortByKey (simKey t) elg).take 2 with htk
      have hlstc : stc.length = (allocRef e.1 elg).1.length := length_setRef _ _ _
      have hvalf : (allocRef stc tk).2 < (allocRef stc tk).1.length := by
        show stc.length < (stc ++ [tk]).length
        rw [List.length_append]
        exact Nat.lt_succ_self _
      rw [getRef_alloc_self]
      have hfinal : getRef (setRef (allocRef stc tk).1 (allocRef stc tk).2
          (sortByKey (simKey t) tk)) (allocRef stc tk).2 = sortByKey (simKey t) tk :=
        getRef_set_self hvalf _
      rw [hfinal]
      refine ⟨?_, rfl⟩
      have hp4 : poolRef < e.1.length := lt_of_lt_of_le h helen
      have hstclen : stc.length = e.1.length + 1 := by rw [hlstc, hlenc]
      have hp2 : poolRef < stc.length := hstclen ▸ Nat.lt_succ_of_lt hp4
      have hp1 : (allocRef stc tk).2 ≠ poolRef := ne_of_gt hp2
      rw [getRef_set_ne hp1]
      rw [getRef_alloc_lt hp2 tk]
      have hp3 : (allocRef e.1 elg).2 ≠ poolRef := ne_of_gt hp4
      rw [hstc, getRef_set_ne hp3]
      rw [getRef_alloc_lt hp4 elg]
      exact heframe poolRef h
    · rw [if_neg hc2, if_neg hc2, e5]
      have hfinal : getRef (setRef e.1 e.2 (sortByKey (simKey t) afterEsc)) e.2 =
          sortByKey (simKey t) afterEsc := getRef_set_self heval _
      rw [hfinal]
      refine ⟨?_, rfl⟩
      have hne : e.2 ≠ poolRef := ne_of_gt (lt_of_lt_of_le h helow)
      rw [getRef_set_ne hne]
      exact heframe poolRef h
  · rw [if_neg hc1, if_neg hc1]
    simp only [getRef_alloc_self]
    rw [if_neg hc1, if_neg hc1]
    simp only [getRef_alloc_self]
    have hfinal : getRef (setRef (allocRef st base).1 (allocRef st base).2
        (sortByKey (simKey t) base)) (allocRef st base).2 = sortByKey (simKey t) base :=
      getRef_set_self hval1 _
    rw [hfinal]
    refine ⟨?_, rfl⟩
    have hne : (allocRef st base).2 ≠ poolRef := ne_of_gt h
    rw [getRef_set_ne hne]
    exact getRef_alloc_lt h base

theorem no_caller_mutation (st : Store) (r : Ref) (num_to_select min_atoms : Nat)
    (t : Molecule) (thr : ℚ) (excl : List String) (h : r < st.length) :
    (getRef (select_representative_heap st r num_to_select min_atoms).1 r = getRef st r ∧
      (select_representative_heap st r num_to_select min_atoms).2 =
        select_representative_molecules (getRef st r) num_to_select min_atoms) ∧
    (getRef (find_similar_heap st r t thr excl).1 r = getRef st r ∧
      (find_similar_heap st r t thr excl).2 =
        find_similar_molecules t (getRef st r) thr excl) ∧
    (getRef (prepare_game_dataset_heap st r min_atoms).1 r = getRef st r ∧
      (prepare_game_dataset_heap st r min_atoms).2 =
        prepare_game_dataset (getRef st r) min_atoms) :=
  ⟨select_representative_heap_spec st r num_to_select min_atoms h,
   find_similar_heap_spec st r t thr excl h,
   prepare_game_dataset_heap_spec st r min_atoms h⟩

/-- Witness for C10: a one-cell store holding the fixture pool; the level
builder's heap run leaves the cell untouched. -/
theorem no_caller_mutation_witness :
    0 < ([poolW] : Store).length ∧
    getRef (prepare_game_dataset_heap [poolW] 0 5).1 0 = getRef [poolW] 0 ∧
    getRef (select_representative_heap [poolW] 0 2 5).1 0 = getRef [poolW] 0 := by
  have h : 0 < ([poolW] : Store).length := by decide
  refine ⟨h, ?_, ?_⟩
  · exact (no_caller_mutation [poolW] 0 2 5 tW SIMILARITY_THRESHOLD [] h).2.2.1
  · exact (no_caller_mutation [poolW] 0 2 5 tW SIMILARITY_THRESHOLD [] h).1.1

end PrepMol
